import Mathlib

set_option maxRecDepth 8000

/-!
Verification development for the bit2coin ledger / consensus core.

The Python sources under `src/` are shallowly embedded as executable Lean
definitions: `Decimal` amounts become exact rationals (`ℚ`), Python `int`
becomes `ℤ`/`ℕ`, dictionaries become insertion-ordered association lists,
Python sets become duplicate-free lists, and every function that reads the
wall clock receives the current time `now` as an explicit argument.
Cryptographic digests (`hashlib.sha256`) and the seeded PRNG are external
primitives; they are replaced by injective content strings respectively a
deterministic index choice, each marked `Modelled from the spec:` in its
doc comment.
-/

deriving instance DecidableEq for Except

namespace B2C

/-! ## Association-list helpers (Python `dict` with insertion order) -/

/-- First-match lookup in an association list, as Python `d.get(k)`. -/
def alookup {α β : Type} [BEq α] (l : List (α × β)) (k : α) : Option β :=
  match l.find? (fun p => p.1 == k) with
  | some p => some p.2
  | none => none

/-- Python `d[k] = v`: update the (unique) existing binding in place,
otherwise append a new binding at the end. -/
def aset {α β : Type} [BEq α] (l : List (α × β)) (k : α) (v : β) :
    List (α × β) :=
  match l with
  | [] => [(k, v)]
  | p :: rest =>
    if p.1 == k then (k, v) :: rest else p :: aset rest k v

/-- Python `del d[k]`: remove the first binding of `k`. -/
def aerase {α β : Type} [BEq α] (l : List (α × β)) (k : α) :
    List (α × β) :=
  match l with
  | [] => []
  | p :: rest => if p.1 == k then rest else p :: aerase rest k

/-! ## Transactions (`src/blockchain/transaction.py`) -/

/-- `TransactionType` enum. -/
inductive TransactionType where
  | transfer
  | stake
  | unstake
  | genesis
  | miningReward
  | delegate
  | undelegate
  | claimReward
deriving DecidableEq, Repr

/-- The `.value` string of each enum member. -/
def TransactionType.value : TransactionType → String
  | .transfer => "transfer"
  | .stake => "stake"
  | .unstake => "unstake"
  | .genesis => "genesis"
  | .miningReward => "mining_reward"
  | .delegate => "delegate"
  | .undelegate => "undelegate"
  | .claimReward => "claim_reward"

/-- `TransactionData` payload fields (the `type` and `nonce` slots of the
dataclass always mirror the transaction's own fields, so they are rendered
from those fields instead of being duplicated here). -/
structure TransactionData where
  validatorAddress : Option String := none
  delegationAmount : Option ℚ := none
  rewardShare : Option ℚ := none
  unbondingTime : Option ℤ := none
  genesisMessage : Option String := none
deriving DecidableEq, Repr

/-- A `Transaction`.  `Decimal` amounts are exact rationals; the
constructor always populates `self.data`, so the payload is not optional
here. -/
structure Transaction where
  version : ℕ := 1
  sender : String
  recipient : String
  amount : ℚ
  transactionType : TransactionType := .transfer
  timestamp : ℤ
  nonce : ℕ := 0
  message : Option String := none
  dataFields : TransactionData := {}
  signature : Option String := none
deriving DecidableEq, Repr

/-- Modelled from the spec: `str()` of a `Decimal` amount.  The exact
digit string of Python's `Decimal` is an opaque serialization consumed
only by the hashing and fee-size computations, so it is replaced by a
numerator/denominator rendering. -/
def decStr (q : ℚ) : String := toString q.num ++ "/" ++ toString q.den

/-- Python's `x or ''` on an optional string. -/
def orEmpty : Option String → String
  | none => ""
  | some s => s

/-- Python truthiness of an optional string (`None` and `''` are falsy). -/
def optStrTruthy : Option String → Bool
  | none => false
  | some s => !s.isEmpty

/-- Rendering of an optional rational inside `str(self.data.__dict__)`. -/
def optDecStr : Option ℚ → String
  | none => "None"
  | some q => decStr q

/-- Rendering of an optional integer inside `str(self.data.__dict__)`. -/
def optIntStr : Option ℤ → String
  | none => "None"
  | some i => toString i

/-- Modelled from the spec: `str(self.data.__dict__)`, the dataclass dict
rendering appended to the transaction's string form. -/
def dataStr (tx : Transaction) : String :=
  tx.transactionType.value ++ "," ++
  orEmpty tx.dataFields.validatorAddress ++ "," ++
  optDecStr tx.dataFields.delegationAmount ++ "," ++
  optDecStr tx.dataFields.rewardShare ++ "," ++
  optIntStr tx.dataFields.unbondingTime ++ "," ++
  orEmpty tx.dataFields.genesisMessage ++ "," ++
  toString tx.nonce

/-- `Transaction.to_string`: the concatenation signed and measured for
the size fee. -/
def txToString (tx : Transaction) : String :=
  toString tx.version ++ tx.sender ++ tx.recipient ++
  decStr tx.amount ++ toString tx.timestamp ++
  tx.transactionType.value ++ toString tx.nonce ++
  orEmpty tx.message ++ dataStr tx

/-- `Transaction._generate_id`. Modelled from the spec: the SHA-256 hex
digest of the content string is replaced by the content string itself
(an injective stand-in; no claim depends on digest collisions). -/
def txId (tx : Transaction) : String :=
  tx.sender ++ tx.recipient ++ decStr tx.amount ++
  toString tx.timestamp ++ tx.transactionType.value ++
  orEmpty tx.message ++ toString tx.nonce ++ toString tx.version ++
  dataStr tx

/-- `Transaction.BASE_FEE = Decimal('0.0001')`. -/
def BASE_FEE : ℚ := 1 / 10000

/-- `Transaction.SIZE_FEE_RATE = Decimal('0.000001')`. -/
def SIZE_FEE_RATE : ℚ := 1 / 1000000

/-- The `fee` property: zero for Genesis/MiningReward, otherwise
`BASE_FEE + len(to_string()) * SIZE_FEE_RATE`. -/
def fee (tx : Transaction) : ℚ :=
  if tx.transactionType = .genesis ∨ tx.transactionType = .miningReward then 0
  else BASE_FEE + (txToString tx).length * SIZE_FEE_RATE

/-- `Transaction.create_genesis`. -/
def createGenesis (recipient : String) (amount : ℚ) (message : String) :
    Transaction :=
  { sender := "0", recipient := recipient, amount := amount,
    transactionType := .genesis, timestamp := 0, message := some message,
    dataFields := { genesisMessage := some message } }

/-- `Transaction.create_reward` (timestamp supplied explicitly in place
of `int(time.time())`). -/
def createReward (recipient : String) (amount : ℚ) (now : ℤ) :
    Transaction :=
  { sender := "0", recipient := recipient, amount := amount,
    transactionType := .miningReward, timestamp := now }

/-! ## Blocks (`src/blockchain/block.py`) -/

/-- A `Block`.  The merkle root, hash and size are the derived functions
below. -/
structure Block where
  height : ℕ
  previousHash : String
  transactions : List Transaction
  timestamp : ℤ
  validator : Option String := none
  version : ℕ := 1
  difficulty : ℕ := 1
  nonce : ℕ := 0
deriving DecidableEq, Repr

/-- `Block._calculate_merkle_root`. Modelled from the spec: the SHA-256
pairing tree over transaction ids is replaced by the concatenation of the
transaction ids (injective stand-in for a content digest). -/
def merkleRoot (b : Block) : String :=
  String.join (b.transactions.map txId)

/-- `Block._calculate_hash`. Modelled from the spec: the SHA-256 digest
of the JSON header is replaced by an injective rendering of the same
header fields. -/
def blockHash (b : Block) : String :=
  toString b.version ++ "|" ++ b.previousHash ++ "|" ++ merkleRoot b ++
  "|" ++ toString b.timestamp ++ "|" ++ toString b.height ++ "|" ++
  orEmpty b.validator ++ "|" ++ toString b.difficulty ++ "|" ++
  toString b.nonce

/-- `Block._calculate_size`. Modelled from the spec: the JSON byte sizes
of header and transactions are replaced by the lengths of the modelled
serializations. -/
def blockSize (b : Block) : ℕ :=
  (blockHash b).length + (b.transactions.map (fun t => (txToString t).length)).sum

/-! ## Genesis configuration (`src/blockchain/genesis_config.py`) -/

/-- `TOTAL_SUPPLY = Decimal('21000000')`. -/
def TOTAL_SUPPLY : ℚ := 21000000

/-- `INITIAL_REWARD = Decimal('50')`. -/
def INITIAL_REWARD : ℚ := 50

/-- `HALVING_INTERVAL = 210000`. -/
def HALVING_INTERVAL : ℕ := 210000

/-- `GenesisConfig.get_block_reward`: floor-divide the height by the
halving interval; zero from the 64th halving on, otherwise the initial
reward divided by `2 ** halvings`. -/
def getBlockReward (blockHeight : ℕ) : ℚ :=
  let halvings := blockHeight / HALVING_INTERVAL
  if halvings ≥ 64 then 0 else INITIAL_REWARD / (2 ^ halvings)

/-- `ProofOfStake.get_block_reward` (`src/consensus/proof_of_stake.py`):
the same schedule computed against the consensus engine's own copies of
`initial_reward = Decimal('50')` and `halving_interval = 210000`. -/
def posGetBlockReward (blockHeight : ℕ) : ℚ :=
  let halvings := blockHeight / 210000
  if halvings ≥ 64 then 0 else (50 : ℚ) / ((2 : ℚ) ^ halvings)

/-! ## Configuration constants (`src/utils/config.py`) -/

/-- `Config.MINIMUM_STAKE = Decimal('100')`. -/
def MINIMUM_STAKE : ℚ := 100

/-- `Config.MAX_MEMPOOL_SIZE = 10000`. -/
def MAX_MEMPOOL_SIZE : ℕ := 10000

/-- `Config.MAX_BLOCK_SIZE = 1_000_000`. -/
def MAX_BLOCK_SIZE : ℕ := 1000000

/-! ## The chain state (`src/blockchain/blockchain.py`)

The `Blockchain` object's mutable attributes, with the genesis wallet
addresses (generated by the external wallet/crypto layer in
`_initialize_genesis_block`) carried as plain fields. -/

structure Blockchain where
  chain : List Block
  currentBlockReward : ℚ
  genesisUnspendable : String
  genesisStaking : String
  mempool : List Transaction
  utxoSet : List (String × List Transaction)
  validatorStakes : List (String × ℚ)
  totalStaked : ℚ
deriving DecidableEq, Repr

/-- `Blockchain.is_unspendable_address`. -/
def isUnspendableAddress (bc : Blockchain) (addr : String) : Bool :=
  addr == bc.genesisUnspendable

/-- `Blockchain.get_balance`: the sum of the amounts of the address's
unspent transactions (zero when the address has no entry). -/
def getBalance (bc : Blockchain) (addr : String) : ℚ :=
  match alookup bc.utxoSet addr with
  | none => 0
  | some utxos => (utxos.map Transaction.amount).sum

/-- `Blockchain.get_validator_stake`. -/
def getValidatorStake (bc : Blockchain) (addr : String) : Option ℚ :=
  alookup bc.validatorStakes addr

/-! ## Transaction verification (`Transaction.verify_transaction`) -/

/-- `_verify_basic_fields`: the `isinstance` checks are vacuous in the
typed embedding; the remaining content is `amount >= 0` and
`version <= VERSION`. -/
def verifyBasicFields (tx : Transaction) : Bool :=
  (0 ≤ tx.amount) && (tx.version ≤ 1)

/-- `_verify_size`: `len(to_string()) <= MAX_SIZE` (100 KB). -/
def verifySize (tx : Transaction) : Bool :=
  (txToString tx).length ≤ 100000

/-- `_verify_timestamp`: at most 2 hours in the future and 24 hours in
the past of the current time. -/
def verifyTimestamp (now : ℤ) (tx : Transaction) : Bool :=
  (tx.timestamp ≤ now + 7200) && (now - 86400 ≤ tx.timestamp)

/-- `_verify_transaction_data`: type-specific payload checks. -/
def verifyTransactionData (tx : Transaction) : Bool :=
  match tx.transactionType with
  | .stake =>
      optStrTruthy tx.dataFields.validatorAddress &&
      (match tx.dataFields.delegationAmount with
       | some a => decide (0 < a)
       | none => false)
  | .unstake =>
      optStrTruthy tx.dataFields.validatorAddress &&
      tx.dataFields.unbondingTime.isSome
  | .delegate =>
      optStrTruthy tx.dataFields.validatorAddress &&
      (match tx.dataFields.delegationAmount with
       | some a => decide (0 < a)
       | none => false)
  | _ => true

/-- `_verify_mining_reward`: system sender and amount equal to the
reward at the current chain length. -/
def verifyMiningReward (bc : Blockchain) (tx : Transaction) : Bool :=
  (tx.sender == "0") && (tx.amount == getBlockReward bc.chain.length)

/-- `_verify_stake`: payload has a validator address and the amount
meets the minimum stake. -/
def verifyStake (tx : Transaction) : Bool :=
  optStrTruthy tx.dataFields.validatorAddress &&
  !(tx.amount < MINIMUM_STAKE)

/-- `_verify_unstake`: payload has a validator address and the sender
has a truthy (non-`None`, nonzero) stake covering the amount. -/
def verifyUnstake (bc : Blockchain) (tx : Transaction) : Bool :=
  optStrTruthy tx.dataFields.validatorAddress &&
  (match getValidatorStake bc tx.sender with
   | none => false
   | some st => !(st == 0) && !(st < tx.amount))

/-- `_verify_transaction_type`: dispatch on the transaction type; the
fall-through for Delegate/Undelegate/ClaimReward returns `False`. -/
def verifyTransactionType (bc : Blockchain) (tx : Transaction) : Bool :=
  match tx.transactionType with
  | .transfer => true
  | .miningReward => verifyMiningReward bc tx
  | .stake => verifyStake tx
  | .unstake => verifyUnstake bc tx
  | _ => false

/-- `_verify_balance`: Genesis/MiningReward bypass the check; otherwise
the sender's balance must cover `amount + fee`. -/
def verifyBalance (bc : Blockchain) (tx : Transaction) : Bool :=
  if tx.transactionType = .genesis ∨ tx.transactionType = .miningReward then
    true
  else !(getBalance bc tx.sender < tx.amount + fee tx)

/-- `Transaction.verify_transaction`: Genesis transactions are always
valid; every other type must pass all validations. -/
def verifyTransaction (bc : Blockchain) (now : ℤ) (tx : Transaction) : Bool :=
  if tx.transactionType = .genesis then true
  else
    verifyBasicFields tx && verifySize tx && verifyTimestamp now tx &&
    verifyTransactionData tx && !(isUnspendableAddress bc tx.sender) &&
    verifyTransactionType bc tx && verifyBalance bc tx

/-! ## Mempool admission (`Blockchain.add_transaction_to_mempool`) -/

/-- `Blockchain.get_transaction_block` restricted to existence: whether
a transaction id occurs in some chained block. -/
def txInChain (bc : Blockchain) (tid : String) : Bool :=
  bc.chain.any (fun b => b.transactions.any (fun t => txId t == tid))

/-- `Blockchain.add_transaction_to_mempool`: reject when the pool is
full, the id is already pooled or chained, or validation fails;
otherwise append. -/
def addTransactionToMempool (bc : Blockchain) (now : ℤ) (tx : Transaction) :
    Bool × Blockchain :=
  if MAX_MEMPOOL_SIZE ≤ bc.mempool.length then (false, bc)
  else if bc.mempool.any (fun t => txId t == txId tx) then (false, bc)
  else if txInChain bc (txId tx) then (false, bc)
  else if !(verifyTransaction bc now tx) then (false, bc)
  else (true, { bc with mempool := bc.mempool ++ [tx] })

/-! ## Stake bookkeeping (`Blockchain.update_validator_stake`) -/

/-- `Blockchain.update_validator_stake`. -/
def updateValidatorStake (bc : Blockchain) (addr : String) (amount : ℚ)
    (isAddition : Bool) : Bool × Blockchain :=
  let currentStake := (alookup bc.validatorStakes addr).getD 0
  if isAddition then
    let newStake := currentStake + amount
    let bc1 := { bc with totalStaked := bc.totalStaked + amount }
    if newStake < MINIMUM_STAKE then
      (true, { bc1 with validatorStakes := aerase bc1.validatorStakes addr })
    else
      (true, { bc1 with validatorStakes := aset bc1.validatorStakes addr newStake })
  else
    if currentStake < amount then (false, bc)
    else
      let newStake := currentStake - amount
      let bc1 := { bc with totalStaked := bc.totalStaked - amount }
      if newStake < MINIMUM_STAKE then
        (true, { bc1 with validatorStakes := aerase bc1.validatorStakes addr })
      else
        (true, { bc1 with validatorStakes := aset bc1.validatorStakes addr newStake })

/-- `Blockchain._process_stake_transactions` (the boolean result of each
stake update is discarded by the source). -/
def processStakeTransactions (bc : Blockchain) (b : Block) : Blockchain :=
  b.transactions.foldl
    (fun acc tx =>
      match tx.transactionType with
      | .stake => (updateValidatorStake acc tx.sender tx.amount true).2
      | .unstake => (updateValidatorStake acc tx.sender tx.amount false).2
      | _ => acc)
    bc

/-! ## UTXO-set update (`Blockchain._update_utxo_set`) -/

/-- The spent-entry loop of `_update_utxo_set`: walk the sender's list in
order; while the remaining spent amount is positive, drop the entry and
subtract its amount; afterwards keep every entry. -/
def consumeUtxos (spent : ℚ) (utxos : List Transaction) : List Transaction :=
  match utxos with
  | [] => []
  | u :: rest =>
      if 0 < spent then consumeUtxos (spent - u.amount) rest
      else u :: consumeUtxos spent rest

/-- Appending a transaction to its recipient's unspent list (the
"add new output" tail of `_update_utxo_set`, also the genesis path of
`add_block`). -/
def creditTx (u : List (String × List Transaction)) (tx : Transaction) :
    List (String × List Transaction) :=
  aset u tx.recipient ((alookup u tx.recipient).getD [] ++ [tx])

/-- One transaction step of `_update_utxo_set`: non-system senders with
an entry have `amount + fee` consumed from their list, then the
recipient is credited. -/
def updateUtxoSetTx (u : List (String × List Transaction))
    (tx : Transaction) : List (String × List Transaction) :=
  let u1 :=
    if tx.sender ≠ "0" then
      match alookup u tx.sender with
      | some utxos => aset u tx.sender (consumeUtxos (tx.amount + fee tx) utxos)
      | none => u
    else u
  creditTx u1 tx

/-- `Blockchain._update_utxo_set` over a whole block. -/
def updateUtxoSet (bc : Blockchain) (b : Block) : Blockchain :=
  { bc with utxoSet := b.transactions.foldl updateUtxoSetTx bc.utxoSet }

/-- `Blockchain._update_mempool`: drop pooled transactions whose id
occurs in the block. -/
def updateMempool (bc : Blockchain) (b : Block) : Blockchain :=
  let kept := bc.mempool.filter
    (fun t => !(b.transactions.any (fun bt => txId bt == txId t)))
  { bc with mempool := kept }

/-- `Blockchain.update_block_reward`. -/
def updateBlockReward (bc : Blockchain) (height : ℕ) : Blockchain :=
  let halvings := height / HALVING_INTERVAL
  if 0 < halvings then
    { bc with currentBlockReward := INITIAL_REWARD / 2 ^ halvings }
  else bc

/-! ## Block validation and chain append (`Blockchain.add_block`) -/

/-- `Blockchain._validate_block_reward`: exactly one MiningReward
transaction whose amount equals the reward at the block's height. -/
def validateBlockReward (_bc : Blockchain) (b : Block) : Bool :=
  match b.transactions.filter
      (fun t => t.transactionType == TransactionType.miningReward) with
  | [rtx] => rtx.amount == getBlockReward b.height
  | _ => false

/-- `Blockchain._is_valid_block`: height, previous hash (an empty chain
raises `IndexError`, caught as invalid), future-timestamp bound, size
bound, reward transaction, and per-transaction verification. -/
def isValidBlock (bc : Blockchain) (now : ℤ) (b : Block) : Bool :=
  (b.height == bc.chain.length) &&
  (match bc.chain.getLast? with
   | none => false
   | some lastBlock => b.previousHash == blockHash lastBlock) &&
  !(now + 7200 < b.timestamp) &&
  !(MAX_BLOCK_SIZE < blockSize b) &&
  validateBlockReward bc b &&
  b.transactions.all (fun t => verifyTransaction bc now t)

/-- `Blockchain.add_block`: a block of height 0 skips every check, is
appended, and has each transaction credited to its recipient; any other
block is validated, then stakes, UTXO set, mempool and reward are
updated and the block appended. -/
def addBlock (bc : Blockchain) (now : ℤ) (b : Block) : Bool × Blockchain :=
  if b.height == 0 then
    (true, { bc with
        chain := bc.chain ++ [b],
        utxoSet := b.transactions.foldl creditTx bc.utxoSet })
  else if !(isValidBlock bc now b) then (false, bc)
  else
    let bc1 := processStakeTransactions bc b
    let bc2 := updateUtxoSet bc1 b
    let bc3 := updateMempool bc2 b
    let bc4 := updateBlockReward bc3 b.height
    (true, { bc4 with chain := bc4.chain ++ [b] })

/-! ## Supply accounting (`Blockchain._calculate_circulating_supply`) -/

/-- The minted total: the sum of the amounts of every Genesis and
MiningReward transaction in the chain. -/
def totalMinted (bc : Blockchain) : ℚ :=
  (bc.chain.map (fun b =>
    ((b.transactions.filter (fun t =>
        t.transactionType == TransactionType.genesis ||
        t.transactionType == TransactionType.miningReward)).map
      Transaction.amount).sum)).sum

/-- `Blockchain._calculate_circulating_supply`: minted total minus the
unspendable address's balance. -/
def calculateCirculatingSupply (bc : Blockchain) : ℚ :=
  totalMinted bc - getBalance bc bc.genesisUnspendable

/-- The sum of `get_balance` over all addresses: every UTXO-set entry's
amount total. -/
def sumBalances (bc : Blockchain) : ℚ :=
  (bc.utxoSet.map (fun p => (p.2.map Transaction.amount).sum)).sum

/-- The balance sum over all addresses other than the given one. -/
def sumBalancesExcept (bc : Blockchain) (addr : String) : ℚ :=
  ((bc.utxoSet.filter (fun p => p.1 ≠ addr)).map
    (fun p => (p.2.map Transaction.amount).sum)).sum

/-! ## Genesis initialization (`Blockchain._initialize_genesis_block`)

The two genesis wallet addresses are produced by the external wallet
layer (`Wallet.generate_new`); they are parameters of the embedding. -/

/-- The genesis block created by `_initialize_genesis_block`: the two
Genesis transactions with the configured balances and messages. -/
def genesisBlock (unspendableAddr stakingAddr : String) : Block :=
  { height := 0, previousHash := "0",
    transactions :=
      [createGenesis unspendableAddr 50 "bitcoin aged fine!",
       createGenesis stakingAddr 150 "Initial staking allocation"],
    timestamp := 0 }

/-- The `Blockchain.__init__` state before the genesis block is added. -/
def emptyBlockchain (u s : String) : Blockchain :=
  { chain := [], currentBlockReward := INITIAL_REWARD,
    genesisUnspendable := u, genesisStaking := s, mempool := [],
    utxoSet := [], validatorStakes := [], totalStaked := 0 }

/-- The freshly initialized chain: the genesis block added to the empty
state. -/
def initialBlockchain (u s : String) : Blockchain :=
  (addBlock (emptyBlockchain u s) 0 (genesisBlock u s)).2

/-! ## Validator selection (`src/consensus/validator_selection.py`) -/

/-- The `Stake` dataclass (amounts are Python `int`). -/
structure Stake where
  address : String
  amount : ℤ
  timestamp : ℤ
  lastValidationTime : Option ℤ := none
deriving DecidableEq, Repr

/-- The `ValidatorSelector` state. -/
structure ValidatorSelector where
  stakes : List (String × Stake) := []
  minStakeAmount : ℤ := 1000
  lockupPeriod : ℤ := 86400
  totalStaked : ℤ := 0
deriving DecidableEq, Repr

/-- `ValidatorSelector.add_stake`: reject below-minimum amounts; replace
an existing stake (subtracting its old amount from the total) with a
fresh record whose `last_validation_time` is `None`. -/
def ValidatorSelector.addStake (vs : ValidatorSelector) (now : ℤ)
    (address : String) (amount : ℤ) : Bool × ValidatorSelector :=
  if amount < vs.minStakeAmount then (false, vs)
  else
    let vs1 :=
      match alookup vs.stakes address with
      | some st => { vs with totalStaked := vs.totalStaked - st.amount }
      | none => vs
    (true, { vs1 with
        stakes := aset vs1.stakes address
          { address := address, amount := amount, timestamp := now },
        totalStaked := vs1.totalStaked + amount })

/-- `ValidatorSelector.remove_stake`: refuse while the lockup period has
not elapsed since the stake's timestamp. -/
def ValidatorSelector.removeStake (vs : ValidatorSelector) (now : ℤ)
    (address : String) : Bool × ValidatorSelector :=
  match alookup vs.stakes address with
  | none => (false, vs)
  | some st =>
      if now - st.timestamp < vs.lockupPeriod then (false, vs)
      else
        (true, { vs with
            totalStaked := vs.totalStaked - st.amount,
            stakes := aerase vs.stakes address })

/-- The cooldown test of `select_validator`: Python checks the truthiness
of `last_validation_time` (so `None` and `0` are both falsy) and then the
5-minute window. -/
def cooldownActive (now : ℤ) : Option ℤ → Bool
  | none => false
  | some t => (!(t == 0)) && decide (now - t < 300)

/-- Modelled from the spec: the SHA-256 digest of the seed string
`f"{height}{prev_hash}"`, replaced by a deterministic string hash (any
fixed pure function preserves the determinism questions at stake). -/
def sha256Model (s : String) : ℕ :=
  s.data.foldl (fun a c => a * 131 + c.toNat) 7

/-- Modelled from the spec: `random.choice` on the global PRNG freshly
seeded from the seed hash — a deterministic pick from the pool indexed by
the seed. -/
def randomChoice (seed : ℕ) (pool : List String) : Option String :=
  pool.get? (seed % pool.length)

/-- The weighted selection pool of `select_validator`: walk the stakes in
insertion order, skip validators in cooldown, and replicate each address
`int(stake.amount / min_stake_amount)` times. -/
def selectionPool (vs : ValidatorSelector) (now : ℤ) : List String :=
  vs.stakes.foldl
    (fun acc p =>
      if cooldownActive now p.2.lastValidationTime then acc
      else acc ++ List.replicate (p.2.amount / vs.minStakeAmount).toNat p.1)
    []

/-- `ValidatorSelector.select_validator`: empty stake map yields `None`;
otherwise pick from the seeded weighted pool and update the chosen
validator's `last_validation_time` to the current time. -/
def ValidatorSelector.selectValidator (vs : ValidatorSelector) (now : ℤ)
    (blockHeight : ℕ) (previousBlockHash : String) :
    Option String × ValidatorSelector :=
  if vs.stakes.isEmpty then (none, vs)
  else
    let seedHash := sha256Model (toString blockHeight ++ previousBlockHash)
    let pool := selectionPool vs now
    if pool.isEmpty then (none, vs)
    else
      match randomChoice seedHash pool with
      | none => (none, vs)
      | some sel =>
          match alookup vs.stakes sel with
          | some st =>
              let st1 := { st with lastValidationTime := some now }
              (some sel, { vs with stakes := aset vs.stakes sel st1 })
          | none => (some sel, vs)

/-- `ValidatorSelector.get_validator_stake`. -/
def ValidatorSelector.getValidatorStake (vs : ValidatorSelector)
    (address : String) : Option Stake :=
  alookup vs.stakes address

/-- `ValidatorSelector.is_active_validator`. -/
def ValidatorSelector.isActiveValidator (vs : ValidatorSelector)
    (address : String) : Bool :=
  match alookup vs.stakes address with
  | some st => vs.minStakeAmount ≤ st.amount
  | none => false

/-! ## Block finalization (`src/consensus/block_finalization.py`) -/

/-- The `BlockVote` dataclass. -/
structure BlockVote where
  validator : String
  blockHash : String
  timestamp : ℤ
  signature : String
deriving DecidableEq, Repr

/-- The `BlockFinalizer` state.  The Python float threshold `0.67` is the
exact rational `67/100`; the `pending_blocks` sets of votes are
duplicate-free lists (`BlockVote` is an unfrozen `@dataclass`, so CPython
would in fact raise `TypeError: unhashable type` on `set.add`; the model
gives the written-down set semantics: deduplication of whole vote
records). -/
structure BlockFinalizer where
  validatorSelector : ValidatorSelector
  finalityThreshold : ℚ := 67 / 100
  voteTimeout : ℤ := 300
  pendingBlocks : List (String × List BlockVote) := []
  finalizedBlocks : List String := []
  latestFinalizedHeight : ℕ := 0
deriving Repr

/-- The voted-stake loop of `_check_finalization`: skip votes older than
the timeout and validators without a stake record, and sum the stake
amounts of the rest. -/
def stakeVoted (vs : ValidatorSelector) (now : ℤ) (voteTimeout : ℤ)
    (votes : List BlockVote) : ℤ :=
  votes.foldl
    (fun acc vote =>
      if voteTimeout < now - vote.timestamp then acc
      else
        match vs.getValidatorStake vote.validator with
        | none => acc
        | some st => acc + st.amount)
    0

/-- `BlockFinalizer._check_finalization`: zero total stake finalizes
nothing; otherwise compare the voted stake against
`total * finality_threshold`. -/
def checkFinalization (fs : BlockFinalizer) (now : ℤ) (blockHash : String)
    (_blockHeight : ℕ) : Bool :=
  match alookup fs.pendingBlocks blockHash with
  | none => false
  | some votes =>
      let total := fs.validatorSelector.totalStaked
      if total == 0 then false
      else
        decide ((total : ℚ) * fs.finalityThreshold ≤
          (stakeVoted fs.validatorSelector now fs.voteTimeout votes : ℚ))

/-- `BlockFinalizer._cleanup_old_votes`: drop expired votes from every
pending block and remove blocks left with no votes. -/
def cleanupOldVotes (fs : BlockFinalizer) (now : ℤ) : BlockFinalizer :=
  let cleaned := fs.pendingBlocks.map
    (fun p => (p.1, p.2.filter (fun v => !(fs.voteTimeout < now - v.timestamp))))
  { fs with pendingBlocks := cleaned.filter (fun p => !p.2.isEmpty) }

/-- `BlockFinalizer._finalize_block`: record the hash as finalized, raise
`latest_finalized_height` to the maximum, delete the hash's pending
votes, and garbage-collect expired votes. -/
def finalizeBlock (fs : BlockFinalizer) (now : ℤ) (blockHash : String)
    (blockHeight : ℕ) : BlockFinalizer :=
  let fs1 := { fs with
      finalizedBlocks := fs.finalizedBlocks ++ [blockHash],
      latestFinalizedHeight := max fs.latestFinalizedHeight blockHeight,
      pendingBlocks := aerase fs.pendingBlocks blockHash }
  cleanupOldVotes fs1 now

/-- The vote-recording step of `submit_vote`: the created vote is added
to the block hash's vote set (the Python `set.add`: no duplicate of an
identical vote record). -/
def recordedVotes (fs : BlockFinalizer) (blockHash : String) (now : ℤ)
    (validator signature : String) : List BlockVote :=
  let vote : BlockVote :=
    { validator := validator, blockHash := blockHash, timestamp := now,
      signature := signature }
  let votes := (alookup fs.pendingBlocks blockHash).getD []
  if votes.contains vote then votes else votes ++ [vote]

/-- `BlockFinalizer.submit_vote`: reject inactive validators and
already-finalized hashes; otherwise record the vote (set semantics) and
finalize when the threshold is met. -/
def submitVote (fs : BlockFinalizer) (now : ℤ) (validator : String)
    (blockHash : String) (blockHeight : ℕ) (signature : String) :
    Bool × BlockFinalizer :=
  if !(fs.validatorSelector.isActiveValidator validator) then (false, fs)
  else if fs.finalizedBlocks.contains blockHash then (false, fs)
  else
    let pb := aset fs.pendingBlocks blockHash
      (recordedVotes fs blockHash now validator signature)
    let fs1 := { fs with pendingBlocks := pb }
    if checkFinalization fs1 now blockHash blockHeight then
      (true, finalizeBlock fs1 now blockHash blockHeight)
    else (true, fs1)

/-! ## Slashing (`src/consensus/slashing.py`) -/

/-- The `SlashingReason` enum. -/
inductive SlashingReason where
  | doubleSigning
  | inactivity
  | invalidVote
  | maliciousFork
deriving DecidableEq, Repr

/-- The `SlashingEvent` record (the untyped `evidence` dict never
influences control flow and is omitted). -/
structure SlashingEvent where
  validator : String
  reason : SlashingReason
  timestamp : ℤ
  penaltyAmount : ℤ
deriving DecidableEq, Repr

/-- The `SlashingManager` state. -/
structure SlashingManager where
  selector : ValidatorSelector
  inactivityThreshold : ℤ := 86400
  minPenaltyPercentage : ℚ := 1 / 10
  maxPenaltyPercentage : ℚ := 1
  slashingHistory : List (String × List SlashingEvent) := []
  recentVotes : List (String × List (ℕ × BlockVote)) := []
deriving Repr

/-- Python `int()` applied to a rational value: truncation toward zero. -/
def pyInt (q : ℚ) : ℤ :=
  if 0 ≤ q then q.floor else -((-q).floor)

/-- `SlashingManager._apply_penalty`: reduce the stake by the penalty
(floored at zero); below the minimum the validator is removed through
`remove_stake` (whose lockup check may silently refuse), otherwise the
reduced stake is re-registered with `add_stake`. -/
def SlashingManager.applyPenalty (sm : SlashingManager) (now : ℤ)
    (validator : String) (penaltyAmount : ℤ) : SlashingManager :=
  match sm.selector.getValidatorStake validator with
  | none => sm
  | some st =>
      let newAmount := max 0 (st.amount - penaltyAmount)
      if newAmount < sm.selector.minStakeAmount then
        { sm with selector := (sm.selector.removeStake now validator).2 }
      else
        { sm with selector := (sm.selector.addStake now validator newAmount).2 }

/-- `SlashingManager._create_slashing_event`: raises `ValueError` when
the validator has no stake; otherwise computes the penalty as
`int(stake.amount * penalty_percentage)`, appends the event to the
history and applies the penalty. -/
def SlashingManager.createSlashingEvent (sm : SlashingManager) (now : ℤ)
    (validator : String) (reason : SlashingReason)
    (penaltyPercentage : ℚ) :
    Except String (SlashingEvent × SlashingManager) :=
  match sm.selector.getValidatorStake validator with
  | none => Except.error "No stake found for validator"
  | some st =>
      let penaltyAmount := pyInt ((st.amount : ℚ) * penaltyPercentage)
      let event : SlashingEvent :=
        { validator := validator, reason := reason, timestamp := now,
          penaltyAmount := penaltyAmount }
      let newHistory := aset sm.slashingHistory validator
        ((alookup sm.slashingHistory validator).getD [] ++ [event])
      let sm1 := { sm with slashingHistory := newHistory }
      Except.ok (event, sm1.applyPenalty now validator penaltyAmount)

/-- `SlashingManager.check_double_signing`: a validator seen for the
first time gets an empty vote map and returns `None` without the vote
being stored; a conflicting prior vote at the height produces a
maximum-penalty event; otherwise the vote is stored. -/
def SlashingManager.checkDoubleSigning (sm : SlashingManager) (now : ℤ)
    (validator : String) (blockHeight : ℕ) (vote : BlockVote) :
    Except String (Option SlashingEvent × SlashingManager) :=
  match alookup sm.recentVotes validator with
  | none =>
      let rv := aset sm.recentVotes validator []
      Except.ok (none, { sm with recentVotes := rv })
  | some heights =>
      match alookup heights blockHeight with
      | some previousVote =>
          if previousVote.blockHash ≠ vote.blockHash then
            match sm.createSlashingEvent now validator
                SlashingReason.doubleSigning sm.maxPenaltyPercentage with
            | Except.ok (event, sm1) => Except.ok (some event, sm1)
            | Except.error e => Except.error e
          else
            let rv := aset sm.recentVotes validator
              (aset heights blockHeight vote)
            Except.ok (none, { sm with recentVotes := rv })
      | none =>
          let rv := aset sm.recentVotes validator
            (aset heights blockHeight vote)
          Except.ok (none, { sm with recentVotes := rv })

/-! ## Chain reorganization (`src/storage/chain_reorg.py`)

`ChainReorganizer` is written against a block record exposing `index`
(the height) and a `BlockchainState` backend exposing
`get_block` / `apply_block` / `revert_block` / `store_chain_head`, none
of which exist in `src/` (`Block` defines `height`, and
`storage/blockchain_state.py` lacks all four methods).  The backend is
therefore modelled from the spec (§4.7): the persistence layer is a hash
→ block map, the ledger effect of a block is tracked as the list of
applied block hashes, and checkpoint create/restore snapshots the chain
head. -/

/-- The block record consumed by the reorganizer (`b.index`, `b.hash`,
`b.previous_hash`). -/
structure RBlock where
  index : ℕ
  hash : String
  previousHash : String
deriving DecidableEq, Repr

/-- Modelled from the spec: the `BlockchainState` backend of the
reorganizer. -/
structure ReorgState where
  blocks : List (String × RBlock)
  head : String
  applied : List String
  checkpointHead : Option String := none
deriving DecidableEq, Repr

/-- Modelled from the spec: `state.get_block(hash)`. -/
def rGetBlock (st : ReorgState) (h : String) : Option RBlock :=
  alookup st.blocks h

/-- Modelled from the spec: `state.revert_block` undoes an applied
block's ledger effects, failing when the block is not applied. -/
def rRevertBlock (st : ReorgState) (b : RBlock) : Bool × ReorgState :=
  if st.applied.contains b.hash then
    (true, { st with applied := st.applied.erase b.hash })
  else (false, st)

/-- Modelled from the spec: `state.apply_block` records the block's
ledger effects. -/
def rApplyBlock (st : ReorgState) (b : RBlock) : Bool × ReorgState :=
  (true, { st with applied := st.applied ++ [b.hash] })

/-- Modelled from the spec: `state.store_chain_head`. -/
def rStoreChainHead (st : ReorgState) (tip : String) : Bool × ReorgState :=
  (true, { st with head := tip })

/-- `_create_checkpoint`: snapshot the chain head (and metadata) into the
`checkpoint:latest` slot. -/
def rCreateCheckpoint (st : ReorgState) : ReorgState :=
  { st with checkpointHead := some st.head }

/-- `_restore_checkpoint`: write the checkpointed head back; the ledger
mutations made since the checkpoint are not undone (the source restores
only `chain:metadata` and `chain:head`). -/
def rRestoreCheckpoint (st : ReorgState) (checkpointedHead : String) :
    ReorgState :=
  { st with head := checkpointedHead }

/-- The `ReorgResult` record. -/
structure ReorgResult where
  success : Bool
  oldTip : String
  newTip : String
  commonAncestor : String
  blocksRemoved : List String
  blocksAdded : List String
  reorgDepth : ℕ
deriving DecidableEq, Repr

/-- The backward walk of `_find_fork_point`: follow `previous_hash` from
the current tip, collecting visited canonical blocks, until a height
present in the new chain carries the same hash.  The Python `while`
terminates on acyclic stores; the fuel bounds the walk by the store
size. -/
def findForkAux (st : ReorgState) (newByHeight : List (ℕ × RBlock))
    (newBlocks : List RBlock) :
    ℕ → String → List RBlock → Option (String × List RBlock × List RBlock)
  | 0, _, _ => none
  | fuel + 1, cur, oldChain =>
      if cur = "" then none
      else
        match rGetBlock st cur with
        | none => none
        | some bd =>
            match alookup newByHeight bd.index with
            | some nb =>
                if nb.hash == cur then
                  some (cur, oldChain,
                    newBlocks.filter (fun b => bd.index < b.index))
                else
                  findForkAux st newByHeight newBlocks fuel bd.previousHash
                    (oldChain ++ [bd])
            | none =>
                findForkAux st newByHeight newBlocks fuel bd.previousHash
                  (oldChain ++ [bd])

/-- `ChainReorganizer._find_fork_point`. -/
def findForkPoint (st : ReorgState) (newBlocks : List RBlock)
    (currentTip : String) : Option (String × List RBlock × List RBlock) :=
  let newByHeight := newBlocks.foldl (fun acc b => aset acc b.index b) []
  findForkAux st newByHeight newBlocks (st.blocks.length + 1) currentTip []

/-- Reverting a list of blocks in order, stopping at the first failure
(the raised exception aborts the loop). -/
def revertAll (st : ReorgState) : List RBlock → Bool × ReorgState
  | [] => (true, st)
  | b :: rest =>
      match rRevertBlock st b with
      | (false, st1) => (false, st1)
      | (true, st1) => revertAll st1 rest

/-- Applying a list of blocks in order, stopping at the first failure. -/
def applyAll (st : ReorgState) : List RBlock → Bool × ReorgState
  | [] => (true, st)
  | b :: rest =>
      match rApplyBlock st b with
      | (false, st1) => (false, st1)
      | (true, st1) => applyAll st1 rest

/-- `ChainReorganizer.handle_reorg`: find the fork point, reject depths
beyond `max_reorg_depth`, checkpoint, revert `reversed(old_chain)`,
apply the new chain, move the head; any failure restores the
checkpointed head and returns `None`. -/
def handleReorg (maxReorgDepth : ℕ) (st : ReorgState)
    (newBlocks : List RBlock) (currentTip : String) :
    Option ReorgResult × ReorgState :=
  match findForkPoint st newBlocks currentTip with
  | none => (none, st)
  | some (forkPoint, oldChain, newChain) =>
      let reorgDepth := oldChain.length
      if maxReorgDepth < reorgDepth then (none, st)
      else
        let st1 := rCreateCheckpoint st
        match revertAll st1 oldChain.reverse with
        | (false, st2) => (none, rRestoreCheckpoint st2 st.head)
        | (true, st2) =>
            match applyAll st2 newChain with
            | (false, st3) => (none, rRestoreCheckpoint st3 st.head)
            | (true, st3) =>
                match newChain.getLast? with
                | none => (none, rRestoreCheckpoint st3 st.head)
                | some lastB =>
                    let st4 := (rStoreChainHead st3 lastB.hash).2
                    (some { success := true, oldTip := currentTip,
                            newTip := lastB.hash,
                            commonAncestor := forkPoint,
                            blocksRemoved := oldChain.map RBlock.hash,
                            blocksAdded := newChain.map RBlock.hash,
                            reorgDepth := reorgDepth }, st4)

/-! ## Measurement definitions used by the stated properties -/

/-- The total amount held in a UTXO map (the sum of `get_balance` over
every address that has an entry; absent addresses contribute zero). -/
def utxoMass (u : List (String × List Transaction)) : ℚ :=
  (u.map (fun p => (p.2.map Transaction.amount).sum)).sum

/-- The amount held at one key of a UTXO map. -/
def keyMass (u : List (String × List Transaction)) (a : String) : ℚ :=
  match alookup u a with
  | none => 0
  | some utxos => (utxos.map Transaction.amount).sum

/-- The minted amount of one block. -/
def mintedInBlock (b : Block) : ℚ :=
  ((b.transactions.filter (fun t =>
      t.transactionType == TransactionType.genesis ||
      t.transactionType == TransactionType.miningReward)).map
    Transaction.amount).sum

/-- A transaction minted by the system: sender `"0"` and type Genesis or
MiningReward. -/
def systemMintTx (tx : Transaction) : Prop :=
  tx.sender = "0" ∧
  (tx.transactionType = TransactionType.genesis ∨
   tx.transactionType = TransactionType.miningReward)

/-- Uniqueness of the keys of a UTXO map (Python dict invariant). -/
def keysNodup (u : List (String × List Transaction)) : Prop :=
  (u.map Prod.fst).Nodup

/-- Folding `add_block` over a list of incoming blocks (each block's
result flag is produced and the state threaded, as callers of
`add_block` do). -/
def applyBlocks (bc : Blockchain) (now : ℤ) (bs : List Block) : Blockchain :=
  bs.foldl (fun acc b => (addBlock acc now b).2) bc

/-! ## Concrete scenario states -/

/-- The genesis allocation to the unspendable wallet (address "U"). -/
def gtxU : Transaction := createGenesis "U" 50 "bitcoin aged fine!"

/-- The genesis allocation to the staking wallet (address "S"). -/
def gtxS : Transaction := createGenesis "S" 150 "Initial staking allocation"

/-- The initialized chain with wallet addresses "U" and "S". -/
def chain0 : Blockchain := initialBlockchain "U" "S"

/-- A mining-reward transaction for height 1 paid to "M". -/
def rewardTx1 : Transaction := createReward "M" 50 1000

/-- A transfer of 10 from the staking wallet to "B". -/
def transferTx1 : Transaction :=
  { sender := "S", recipient := "B", amount := 10, timestamp := 1000 }

/-- A valid height-1 block: the reward and the transfer. -/
def block1 : Block :=
  { height := 1, previousHash := blockHash (genesisBlock "U" "S"),
    transactions := [rewardTx1, transferTx1], timestamp := 1000 }

/-- The chain after `block1` is accepted. -/
def chain1 : Blockchain := (addBlock chain0 1000 block1).2

/-- A transfer spending far more than the sender's balance. -/
def overspendTx : Transaction :=
  { sender := "S", recipient := "B", amount := 1000, timestamp := 1000 }

/-- A height-0 block carrying the overspending transfer, with a junk
previous hash. -/
def zeroHeightBlock : Block :=
  { height := 0, previousHash := "junk", transactions := [overspendTx],
    timestamp := 1000 }

/-- A nonzero-height block carrying the overspending transfer. -/
def overspendBlock1 : Block :=
  { height := 1, previousHash := "x", transactions := [overspendTx],
    timestamp := 1000 }

/-- A transfer from an address that holds nothing, in a height-0 block. -/
def strayTx : Transaction :=
  { sender := "Z", recipient := "W", amount := 7, timestamp := 42 }

/-- Another junk height-0 block, added on top of an existing chain. -/
def strayBlock : Block :=
  { height := 0, previousHash := "nonsense", transactions := [strayTx],
    timestamp := 42 }

/-- An old small unspent entry of "S". -/
def smallUtxo : Transaction :=
  { sender := "0", recipient := "S", amount := 10, timestamp := 0 }

/-- A newer large unspent entry of "S". -/
def largeUtxo : Transaction :=
  { sender := "0", recipient := "S", amount := 100, timestamp := 1 }

/-- A UTXO map where "S" holds the small entry before the large one. -/
def utxoBefore : List (String × List Transaction) :=
  [("S", [smallUtxo, largeUtxo])]

/-- A transfer of 5 from "S" to "R". -/
def spendTx : Transaction :=
  { sender := "S", recipient := "R", amount := 5, timestamp := 2 }

/-- Two validators "A" and "B" of equal stake, neither ever selected. -/
def selAB : ValidatorSelector :=
  { stakes :=
      [("A", { address := "A", amount := 1000, timestamp := 0 }),
       ("B", { address := "B", amount := 1000, timestamp := 0 })],
    totalStaked := 2000 }

/-- The first selection call at `(height 1, prev hash "p")`. -/
def selectRun1 : Option String × ValidatorSelector :=
  selAB.selectValidator 100 1 "p"

/-- The repeated selection call with the same height and prev hash. -/
def selectRun2 : Option String × ValidatorSelector :=
  selectRun1.2.selectValidator 101 1 "p"

/-- A single validator "V" with stake 1000. -/
def selV : ValidatorSelector :=
  { stakes := [("V", { address := "V", amount := 1000, timestamp := 0 })],
    totalStaked := 1000 }

/-- A fresh slashing manager over "V". -/
def slash0 : SlashingManager := { selector := selV }

/-- "V"'s first vote at height 5: block hash "A". -/
def voteA : BlockVote :=
  { validator := "V", blockHash := "A", timestamp := 0, signature := "s1" }

/-- "V"'s conflicting vote at height 5: block hash "B". -/
def voteB : BlockVote :=
  { validator := "V", blockHash := "B", timestamp := 1, signature := "s2" }

/-- The first double-signing check. -/
def slashRun1 : Except String (Option SlashingEvent × SlashingManager) :=
  slash0.checkDoubleSigning 0 "V" 5 voteA

/-- The manager after the first check. -/
def slash1 : SlashingManager :=
  match slashRun1 with
  | Except.ok (_, s) => s
  | Except.error _ => slash0

/-- The second double-signing check, with the conflicting hash. -/
def slashRun2 : Except String (Option SlashingEvent × SlashingManager) :=
  slash1.checkDoubleSigning 1 "V" 5 voteB

/-- The manager after both checks. -/
def slash2 : SlashingManager :=
  match slashRun2 with
  | Except.ok (_, s) => s
  | Except.error _ => slash1

/-- Validators "V" (stake 1000) and "W" (stake 5000). -/
def selVW : ValidatorSelector :=
  { stakes :=
      [("V", { address := "V", amount := 1000, timestamp := 0 }),
       ("W", { address := "W", amount := 5000, timestamp := 0 })],
    totalStaked := 6000 }

/-- A fresh finalizer over "V" and "W". -/
def fin0 : BlockFinalizer := { validatorSelector := selVW }

/-- "V"'s first recorded vote for hash "H". -/
def voteH1 : BlockVote :=
  { validator := "V", blockHash := "H", timestamp := 0, signature := "s1" }

/-- "V"'s repeated vote for hash "H" (later timestamp, new signature). -/
def voteH2 : BlockVote :=
  { validator := "V", blockHash := "H", timestamp := 1, signature := "s2" }

/-- The finalizer after "V"'s first vote for "H". -/
def fin1 : BlockFinalizer := (submitVote fin0 0 "V" "H" 1 "s1").2

/-- The finalizer after "V" votes for "H" a second time. -/
def fin2 : BlockFinalizer := (submitVote fin1 1 "V" "H" 1 "s2").2

/-- A finalizer over the single validator "V" holding all stake. -/
def finB0 : BlockFinalizer := { validatorSelector := selV }

/-- The finalizer after "V" votes for block hash "b" at height 2,
finalizing it (V holds 100% ≥ 67% of stake). -/
def finB1 : BlockFinalizer := (submitVote finB0 0 "V" "b" 2 "sig").2

/-- The vote record created by that finalizing submission. -/
def voteBfin : BlockVote :=
  { validator := "V", blockHash := "b", timestamp := 0, signature := "sig" }

/-- Canonical reorg-side blocks: genesis "g", then "a", then "b". -/
def rbG : RBlock := { index := 0, hash := "g", previousHash := "" }

/-- Canonical block at height 1. -/
def rbA : RBlock := { index := 1, hash := "a", previousHash := "g" }

/-- Canonical tip block at height 2. -/
def rbB : RBlock := { index := 2, hash := "b", previousHash := "a" }

/-- A competing block at height 2 on top of "a". -/
def rbB2 : RBlock := { index := 2, hash := "b2", previousHash := "a" }

/-- A competing block at height 3 on top of "b2". -/
def rbC2 : RBlock := { index := 3, hash := "c2", previousHash := "b2" }

/-- A competing height-1 block for the deep fork. -/
def rbA3 : RBlock := { index := 1, hash := "a3", previousHash := "g" }

/-- A competing height-2 block for the deep fork. -/
def rbB3 : RBlock := { index := 2, hash := "b3", previousHash := "a3" }

/-- A competing height-3 block for the deep fork. -/
def rbC3 : RBlock := { index := 3, hash := "c3", previousHash := "b3" }

/-- The canonical reorg state: chain g → a → b applied, head "b". -/
def reorgSt : ReorgState :=
  { blocks := [("g", rbG), ("a", rbA), ("b", rbB)], head := "b",
    applied := ["g", "a", "b"] }

/-- A competing segment forking at "a" (depth 1): it reverts the
finalized tip "b". -/
def newBlocksShallow : List RBlock := [rbA, rbB2, rbC2]

/-- A competing segment forking at genesis "g" (depth 2). -/
def newBlocksDeep : List RBlock := [rbG, rbA3, rbB3, rbC3]

end B2C

namespace B2C

/-- C9: the halving schedule of `get_block_reward`: `initial_reward /
2^⌊height/halving_interval⌋` below 64 halvings, `0` from the 64th halving
on, with the three concrete anchor values, and agreement between the
`GenesisConfig` and `ProofOfStake` implementations. -/
theorem halving_schedule :
    (∀ h : ℕ, h / HALVING_INTERVAL < 64 →
      getBlockReward h = INITIAL_REWARD / 2 ^ (h / HALVING_INTERVAL)) ∧
    (∀ h : ℕ, 64 ≤ h / HALVING_INTERVAL → getBlockReward h = 0) ∧
    getBlockReward 0 = 50 ∧
    getBlockReward 210000 = 25 ∧
    getBlockReward (210000 * 64) = 0 ∧
    (∀ h : ℕ, posGetBlockReward h = getBlockReward h) := by
  refine ⟨?_, ?_, ?_, ?_, ?_, ?_⟩
  · intro h hlt
    simp [getBlockReward, Nat.not_le.mpr hlt]
  · intro h hle
    simp [getBlockReward, hle]
  · norm_num [getBlockReward, INITIAL_REWARD, HALVING_INTERVAL]
  · norm_num [getBlockReward, INITIAL_REWARD, HALVING_INTERVAL]
  · norm_num [getBlockReward, HALVING_INTERVAL]
  · intro h
    simp [posGetBlockReward, getBlockReward, INITIAL_REWARD, HALVING_INTERVAL]

/-- C9 witness: two halvings at height 420000 give reward 12.5. -/
theorem halving_schedule_witness :
    getBlockReward 420000 = INITIAL_REWARD / 2 ^ (420000 / HALVING_INTERVAL) :=
  halving_schedule.1 420000 (by decide)

/-! ## Association-list lemmas -/

theorem alookup_nil {α β : Type} [BEq α] (k : α) :
    alookup ([] : List (α × β)) k = none := rfl

theorem alookup_cons {α β : Type} [BEq α] (p : α × β) (l : List (α × β))
    (k : α) :
    alookup (p :: l) k = if p.1 == k then some p.2 else alookup l k := by
  simp only [alookup, List.find?]
  cases h : p.1 == k <;> simp [h]

theorem alookup_aset_self {α β : Type} [BEq α] [LawfulBEq α]
    (l : List (α × β)) (k : α) (v : β) :
    alookup (aset l k v) k = some v := by
  induction l with
  | nil => simp [aset, alookup_cons]
  | cons p rest ih =>
      by_cases h : p.1 == k
      · simp [aset, h, alookup_cons]
      · simp only [aset, h, if_false, Bool.false_eq_true]
        rw [alookup_cons, if_neg (by simp_all), ih]

theorem alookup_aset_ne {α β : Type} [BEq α] [LawfulBEq α]
    (l : List (α × β)) (k a : α) (v : β) (h : a ≠ k) :
    alookup (aset l k v) a = alookup l a := by
  have hka : ¬((k == a) = true) := by simpa using fun e => h e.symm
  induction l with
  | nil =>
      simp only [aset]
      rw [alookup_cons, if_neg hka]
  | cons p rest ih =>
      by_cases hp : (p.1 == k) = true
      · have hp' : p.1 = k := by simpa using hp
        have hpa : ¬((p.1 == a) = true) := by
          simpa [hp'] using fun e => h e.symm
        simp only [aset, hp, if_true]
        rw [alookup_cons, alookup_cons, if_neg hka, if_neg hpa]
      · simp only [aset, hp, if_false, Bool.false_eq_true]
        rw [alookup_cons, alookup_cons, ih]

theorem alookup_creditTx_self (u : List (String × List Transaction))
    (tx : Transaction) :
    alookup (creditTx u tx) tx.recipient =
      some ((alookup u tx.recipient).getD [] ++ [tx]) := by
  simp [creditTx, alookup_aset_self]

theorem alookup_creditTx_ne (u : List (String × List Transaction))
    (tx : Transaction) (a : String) (h : a ≠ tx.recipient) :
    alookup (creditTx u tx) a = alookup u a := by
  simp [creditTx, alookup_aset_ne _ _ _ _ h]

/-! ## The unspent-entry consumption loop -/

theorem consumeUtxos_keep (spent : ℚ) (l : List Transaction)
    (h : ¬(0 < spent)) : consumeUtxos spent l = l := by
  induction l with
  | nil => rfl
  | cons u rest ih => simp [consumeUtxos, h, ih]

/-- `consumeUtxos` removes exactly the shortest prefix (in list order)
whose amount total reaches the spent amount, and keeps the remaining
suffix with every entry intact. -/
theorem consumeUtxos_spec (spent : ℚ) (l : List Transaction) :
    ∃ k, k ≤ l.length ∧ consumeUtxos spent l = l.drop k ∧
      (∀ j, j < k → ((l.take j).map Transaction.amount).sum < spent) ∧
      (k < l.length → spent ≤ ((l.take k).map Transaction.amount).sum) := by
  induction l generalizing spent with
  | nil =>
      exact ⟨0, le_rfl, rfl, fun j hj => absurd hj (Nat.not_lt_zero j),
        fun h => absurd h (lt_irrefl 0)⟩
  | cons u rest ih =>
      by_cases h : 0 < spent
      · obtain ⟨k, hkle, heq, hmin, hcov⟩ := ih (spent - u.amount)
        refine ⟨k + 1, by simpa using hkle, ?_, ?_, ?_⟩
        · simpa [consumeUtxos, h] using heq
        · intro j hj
          cases j with
          | zero => simpa using h
          | succ j' =>
              have hj' : j' < k := Nat.succ_lt_succ_iff.mp hj
              have := hmin j' hj'
              simp only [List.take_succ_cons, List.map_cons, List.sum_cons]
              linarith
        · intro hlt
          have hk : k < rest.length := Nat.succ_lt_succ_iff.mp hlt
          have := hcov hk
          simp only [List.take_succ_cons, List.map_cons, List.sum_cons]
          linarith
      · refine ⟨0, Nat.zero_le _, ?_, fun j hj => absurd hj (Nat.not_lt_zero j),
          fun _ => ?_⟩
        · simpa using consumeUtxos_keep spent (u :: rest) h
        · simpa using le_of_not_lt h

/-- C8 (amended): applying a transaction from a non-system sender with an
unspent-entry list consumes that list in insertion order: the shortest
prefix whose amount total reaches `amount + fee` is removed whole (never
partially), the suffix is kept intact, and the recipient's list gains
exactly one new entry, the transaction itself (of amount `amount`). -/
theorem utxo_consumption_order (u : List (String × List Transaction))
    (tx : Transaction) (l : List Transaction)
    (hs : tx.sender ≠ "0") (hr : tx.recipient ≠ tx.sender)
    (hl : alookup u tx.sender = some l) :
    ∃ k, k ≤ l.length ∧
      alookup (updateUtxoSetTx u tx) tx.sender = some (l.drop k) ∧
      (∀ j, j < k →
        ((l.take j).map Transaction.amount).sum < tx.amount + fee tx) ∧
      (k < l.length →
        tx.amount + fee tx ≤ ((l.take k).map Transaction.amount).sum) ∧
      alookup (updateUtxoSetTx u tx) tx.recipient =
        some ((alookup u tx.recipient).getD [] ++ [tx]) := by
  obtain ⟨k, hkle, heq, hmin, hcov⟩ := consumeUtxos_spec (tx.amount + fee tx) l
  have hu1 : updateUtxoSetTx u tx =
      creditTx (aset u tx.sender (consumeUtxos (tx.amount + fee tx) l)) tx := by
    simp [updateUtxoSetTx, hs, hl]
  refine ⟨k, hkle, ?_, hmin, hcov, ?_⟩
  · rw [hu1, alookup_creditTx_ne _ _ _ (fun e => hr e.symm),
      alookup_aset_self, heq]
  · rw [hu1, alookup_creditTx_self,
      alookup_aset_ne _ _ _ _ hr]

/-- C8 witness: applying the 5-coin spend to the list `[10, 100]` held
by "S". -/
theorem utxo_consumption_order_witness :
    ∃ k, k ≤ ([smallUtxo, largeUtxo] : List Transaction).length ∧
      alookup (updateUtxoSetTx utxoBefore spendTx) spendTx.sender =
        some (([smallUtxo, largeUtxo] : List Transaction).drop k) ∧
      (∀ j, j < k →
        ((([smallUtxo, largeUtxo] : List Transaction).take j).map
          Transaction.amount).sum < spendTx.amount + fee spendTx) ∧
      (k < ([smallUtxo, largeUtxo] : List Transaction).length →
        spendTx.amount + fee spendTx ≤
          ((([smallUtxo, largeUtxo] : List Transaction).take k).map
            Transaction.amount).sum) ∧
      alookup (updateUtxoSetTx utxoBefore spendTx) spendTx.recipient =
        some ((alookup utxoBefore spendTx.recipient).getD [] ++ [spendTx]) :=
  utxo_consumption_order utxoBefore spendTx [smallUtxo, largeUtxo]
    (by decide) (by decide) rfl

theorem fee_spendTx : fee spendTx = 143 / 1000000 := by
  have h : (txToString spendTx).length = 43 := by decide
  simp +decide only [fee, h]
  norm_num [BASE_FEE, SIZE_FEE_RATE]

/-- C8 counterexample: with "S" holding entries of 10 then 100 and a
spend of `5 + fee < 10`, the smaller first entry is consumed whole (not
the largest entry, and more than `amount + fee`), while the largest
entry is kept. -/
theorem utxo_consumption_counterexample :
    alookup (updateUtxoSetTx utxoBefore spendTx) "S" = some [largeUtxo] ∧
    alookup (updateUtxoSetTx utxoBefore spendTx) "R" = some [spendTx] ∧
    spendTx.amount + fee spendTx < smallUtxo.amount := by
  have hlt : spendTx.amount + fee spendTx < smallUtxo.amount := by
    rw [fee_spendTx, show spendTx.amount = 5 from rfl,
      show smallUtxo.amount = 10 from rfl]
    norm_num
  have h01 : (0:ℚ) < spendTx.amount + fee spendTx := by
    rw [fee_spendTx, show spendTx.amount = 5 from rfl]
    norm_num
  have h02 : ¬((0:ℚ) < spendTx.amount + fee spendTx - smallUtxo.amount) := by
    rw [fee_spendTx, show spendTx.amount = 5 from rfl,
      show smallUtxo.amount = 10 from rfl]
    norm_num
  have hcons : consumeUtxos (spendTx.amount + fee spendTx)
      [smallUtxo, largeUtxo] = [largeUtxo] := by
    simp only [consumeUtxos, if_pos h01, if_neg h02]
  have hu1 : updateUtxoSetTx utxoBefore spendTx =
      creditTx (aset utxoBefore "S"
        (consumeUtxos (spendTx.amount + fee spendTx)
          [smallUtxo, largeUtxo])) spendTx := by
    rw [updateUtxoSetTx, if_pos (by decide),
      show alookup utxoBefore spendTx.sender = some [smallUtxo, largeUtxo]
        from rfl]
    rfl
  refine ⟨?_, ?_, hlt⟩
  · rw [hu1, hcons]; decide
  · rw [hu1, hcons]; decide

/-! ## Crediting a recipient: balance bookkeeping -/

theorem keyMass_getD (u : List (String × List Transaction)) (a : String) :
    keyMass u a = (((alookup u a).getD []).map Transaction.amount).sum := by
  rw [keyMass]
  cases alookup u a <;> simp

theorem keyMass_creditTx (u : List (String × List Transaction))
    (tx : Transaction) (a : String) :
    keyMass (creditTx u tx) a =
      keyMass u a + (if tx.recipient == a then tx.amount else 0) := by
  rw [keyMass_getD, keyMass_getD]
  by_cases h : a = tx.recipient
  · subst h
    rw [alookup_creditTx_self]
    simp
  · rw [alookup_creditTx_ne _ _ _ h,
      if_neg (by simpa using fun e => h e.symm), add_zero]

theorem keyMass_foldl_creditTx (txs : List Transaction)
    (u : List (String × List Transaction)) (a : String) :
    keyMass (txs.foldl creditTx u) a =
      keyMass u a +
        ((txs.filter (fun t => t.recipient == a)).map Transaction.amount).sum := by
  induction txs generalizing u with
  | nil => simp
  | cons t ts ih =>
      rw [List.foldl_cons, ih, keyMass_creditTx]
      by_cases h : (t.recipient == a) = true
      · simp only [List.filter_cons, h, if_pos, List.map_cons, List.sum_cons]
        ring
      · simp only [List.filter_cons, h, Bool.false_eq_true, if_false]
        ring

/-- C10: a block of height 0 is accepted unconditionally by `add_block`:
for every current state and every such block — junk previous hash,
arbitrary transactions, chain already populated — the call returns
`True`, appends the block, leaves mempool and stakes untouched, and
credits each transaction's amount to its recipient (with no debit of any
sender). -/
theorem genesis_bypass (bc : Blockchain) (now : ℤ) (b : Block)
    (h : b.height = 0) :
    (addBlock bc now b).1 = true ∧
    (addBlock bc now b).2.chain = bc.chain ++ [b] ∧
    (addBlock bc now b).2.mempool = bc.mempool ∧
    (addBlock bc now b).2.validatorStakes = bc.validatorStakes ∧
    ∀ a, getBalance (addBlock bc now b).2 a =
      getBalance bc a +
        ((b.transactions.filter (fun t => t.recipient == a)).map
          Transaction.amount).sum := by
  have hb : (b.height == 0) = true := by simpa using h
  simp only [addBlock, hb, if_true]
  refine ⟨trivial, trivial, trivial, trivial, fun a => ?_⟩
  have h1 : ∀ bc1 : Blockchain, getBalance bc1 a = keyMass bc1.utxoSet a := by
    intro bc1; rfl
  rw [h1, h1]
  exact keyMass_foldl_creditTx b.transactions bc.utxoSet a

/-- C10 witness: a junk height-0 block added on top of the already
initialized chain is accepted, appended, and credits "W" with 7. -/
theorem genesis_bypass_witness :
    (addBlock chain0 42 strayBlock).1 = true ∧
    (addBlock chain0 42 strayBlock).2.chain = chain0.chain ++ [strayBlock] ∧
    getBalance (addBlock chain0 42 strayBlock).2 "W" = 7 := by
  have h := genesis_bypass chain0 42 strayBlock rfl
  refine ⟨h.1, h.2.1, ?_⟩
  rw [h.2.2.2.2 "W", show getBalance chain0 "W" = 0 from rfl]
  norm_num [strayBlock, strayTx]

/-! ## Rejection of underfunded transactions -/

theorem all_false_of_mem {α : Type} {l : List α} {p : α → Bool} {x : α}
    (hx : x ∈ l) (hp : p x = false) : l.all p = false := by
  cases h : l.all p
  · rfl
  · exact absurd (List.all_eq_true.mp h x hx) (by simp [hp])

theorem verifyBalance_insufficient (bc : Blockchain) (tx : Transaction)
    (h1 : tx.transactionType ≠ TransactionType.genesis)
    (h2 : tx.transactionType ≠ TransactionType.miningReward)
    (h3 : getBalance bc tx.sender < tx.amount + fee tx) :
    verifyBalance bc tx = false := by
  rw [verifyBalance, if_neg (by tauto)]
  simp [h3]

theorem verifyTransaction_insufficient (bc : Blockchain) (now : ℤ)
    (tx : Transaction)
    (h1 : tx.transactionType ≠ TransactionType.genesis)
    (h2 : tx.transactionType ≠ TransactionType.miningReward)
    (h3 : getBalance bc tx.sender < tx.amount + fee tx) :
    verifyTransaction bc now tx = false := by
  rw [verifyTransaction, if_neg h1,
    verifyBalance_insufficient bc tx h1 h2 h3]
  simp

theorem mempool_rejects_insufficient (bc : Blockchain) (now : ℤ)
    (tx : Transaction)
    (h1 : tx.transactionType ≠ TransactionType.genesis)
    (h2 : tx.transactionType ≠ TransactionType.miningReward)
    (h3 : getBalance bc tx.sender < tx.amount + fee tx) :
    addTransactionToMempool bc now tx = (false, bc) := by
  rw [addTransactionToMempool]
  split_ifs with h4 h5 h6 h7
  · rfl
  · rfl
  · rfl
  · rfl
  · exfalso
    apply h7
    rw [verifyTransaction_insufficient bc now tx h1 h2 h3]
    rfl

theorem addBlock_rejects_invalid_tx (bc : Blockchain) (now : ℤ)
    (tx : Transaction) (b : Block)
    (hb : b.height ≠ 0) (hmem : tx ∈ b.transactions)
    (hv : verifyTransaction bc now tx = false) :
    addBlock bc now b = (false, bc) := by
  have hall : b.transactions.all (fun t => verifyTransaction bc now t) =
      false := all_false_of_mem hmem hv
  have hvalid : isValidBlock bc now b = false := by
    rw [isValidBlock, hall]
    simp
  rw [addBlock, if_neg (by simpa using hb), if_pos (by rw [hvalid]; rfl)]

/-- C2 (amended): a non-system transaction whose sender's balance is
below `amount + fee` always fails `verify_transaction`, is never
admitted to the mempool, and is never applied through a block of nonzero
height (`add_block` rejects the block and leaves the state unchanged);
blocks of height 0 bypass validation entirely and are excluded here. -/
theorem insufficient_balance_rejected (bc : Blockchain) (now : ℤ)
    (tx : Transaction)
    (h1 : tx.transactionType ≠ TransactionType.genesis)
    (h2 : tx.transactionType ≠ TransactionType.miningReward)
    (h3 : getBalance bc tx.sender < tx.amount + fee tx) :
    verifyTransaction bc now tx = false ∧
    addTransactionToMempool bc now tx = (false, bc) ∧
    ∀ b : Block, b.height ≠ 0 → tx ∈ b.transactions →
      addBlock bc now b = (false, bc) :=
  ⟨verifyTransaction_insufficient bc now tx h1 h2 h3,
   mempool_rejects_insufficient bc now tx h1 h2 h3,
   fun b hb hmem => addBlock_rejects_invalid_tx bc now tx b hb hmem
     (verifyTransaction_insufficient bc now tx h1 h2 h3)⟩

theorem fee_overspendTx : fee overspendTx = 149 / 1000000 := by
  have h : (txToString overspendTx).length = 49 := by decide
  simp +decide only [fee, h]
  norm_num [BASE_FEE, SIZE_FEE_RATE]

theorem overspend_balance :
    getBalance chain0 overspendTx.sender <
      overspendTx.amount + fee overspendTx := by
  have hl : alookup chain0.utxoSet overspendTx.sender = some [gtxS] := rfl
  have hb : getBalance chain0 overspendTx.sender = 150 := by
    simp only [getBalance, hl, List.map_cons, List.map_nil, List.sum_cons,
      List.sum_nil]
    norm_num [gtxS, createGenesis]
  rw [hb, fee_overspendTx, show overspendTx.amount = 1000 from rfl]
  norm_num

/-- C2 witness: on the initialized chain, a 1000-coin transfer from the
staking wallet (balance 150) fails verification, is kept out of the
mempool, and is rejected inside a height-1 block. -/
theorem insufficient_balance_rejected_witness :
    verifyTransaction chain0 1000 overspendTx = false ∧
    addTransactionToMempool chain0 1000 overspendTx = (false, chain0) ∧
    addBlock chain0 1000 overspendBlock1 = (false, chain0) := by
  have h := insufficient_balance_rejected chain0 1000 overspendTx
    (by decide) (by decide) overspend_balance
  refine ⟨h.1, h.2.1, h.2.2 overspendBlock1 (by decide) ?_⟩
  rw [show overspendBlock1.transactions = [overspendTx] from rfl]
  exact List.mem_singleton.mpr rfl

/-- C2 counterexample: the very same underfunded transfer is applied
through an accepted block of height 0 — `add_block` returns `True`,
appends the block, and credits the recipient with the full 1000. -/
theorem insufficient_balance_bypassed_counterexample :
    verifyTransaction chain0 1000 overspendTx = false ∧
    (addBlock chain0 1000 zeroHeightBlock).1 = true ∧
    (addBlock chain0 1000 zeroHeightBlock).2.chain =
      chain0.chain ++ [zeroHeightBlock] ∧
    getBalance (addBlock chain0 1000 zeroHeightBlock).2 "B" = 1000 := by
  refine ⟨verifyTransaction_insufficient chain0 1000 overspendTx
    (by decide) (by decide) overspend_balance, ?_, ?_, ?_⟩
  · simp only [addBlock]
    rfl
  · simp only [addBlock]
    rfl
  · have hb : (zeroHeightBlock.height == 0) = true := by decide
    simp only [addBlock, hb, if_true]
    have h1 : ∀ bc1 : Blockchain, getBalance bc1 "B" = keyMass bc1.utxoSet "B" := by
      intro bc1; rfl
    rw [h1, keyMass_foldl_creditTx, show keyMass chain0.utxoSet "B" = 0 from rfl]
    norm_num [zeroHeightBlock, overspendTx]

/-! ## The accepted height-1 block of the supply scenario -/

theorem fee_transferTx1 : fee transferTx1 = 147 / 1000000 := by
  have h : (txToString transferTx1).length = 47 := by decide
  simp +decide only [fee, h]
  norm_num [BASE_FEE, SIZE_FEE_RATE]

theorem getBlockReward_one : getBlockReward 1 = 50 := by
  norm_num [getBlockReward, HALVING_INTERVAL, INITIAL_REWARD]

theorem balance_staking_chain0 : getBalance chain0 transferTx1.sender = 150 := by
  have hl : alookup chain0.utxoSet transferTx1.sender = some [gtxS] := rfl
  simp only [getBalance, hl, List.map_cons, List.map_nil, List.sum_cons,
    List.sum_nil]
  norm_num [gtxS, createGenesis]

theorem verifyBalance_transferTx1 : verifyBalance chain0 transferTx1 = true := by
  have h : ¬(getBalance chain0 transferTx1.sender <
      transferTx1.amount + fee transferTx1) := by
    rw [balance_staking_chain0, fee_transferTx1,
      show transferTx1.amount = 10 from rfl]
    norm_num
  rw [verifyBalance, if_neg (by decide), decide_eq_false h]
  rfl

theorem verifyTransaction_transferTx1 :
    verifyTransaction chain0 1000 transferTx1 = true := by
  rw [verifyTransaction, if_neg (by decide)]
  rw [verifyBalance_transferTx1]
  decide

theorem verifyMiningReward_rewardTx1 :
    verifyMiningReward chain0 rewardTx1 = true := by
  simp only [verifyMiningReward, show chain0.chain.length = 1 from rfl,
    getBlockReward_one]
  decide

theorem verifyTransaction_rewardTx1 :
    verifyTransaction chain0 1000 rewardTx1 = true := by
  rw [verifyTransaction, if_neg (by decide)]
  simp +decide only [verifyTransactionType, verifyMiningReward_rewardTx1]

theorem validateBlockReward_block1 :
    validateBlockReward chain0 block1 = true := by
  simp +decide only [validateBlockReward, block1, List.filter_cons,
    List.filter_nil, if_true, if_false, ite_true, ite_false,
    getBlockReward_one]

theorem isValidBlock_block1 : isValidBlock chain0 1000 block1 = true := by
  rw [isValidBlock]
  rw [show block1.transactions = [rewardTx1, transferTx1] from rfl]
  simp only [List.all_cons, List.all_nil, verifyTransaction_rewardTx1,
    verifyTransaction_transferTx1, validateBlockReward_block1]
  decide

/-- The state after the accepted height-1 block, written out. -/
def chain1Explicit : Blockchain :=
  { chain := [genesisBlock "U" "S", block1], currentBlockReward := 50,
    genesisUnspendable := "U", genesisStaking := "S", mempool := [],
    utxoSet := [("U", [gtxU]), ("S", []), ("M", [rewardTx1]),
      ("B", [transferTx1])],
    validatorStakes := [], totalStaked := 0 }

theorem addBlock_block1 :
    addBlock chain0 1000 block1 = (true, chain1Explicit) := by
  have h01 : (0:ℚ) < transferTx1.amount + fee transferTx1 := by
    rw [fee_transferTx1, show transferTx1.amount = 10 from rfl]; norm_num
  have hcons : consumeUtxos (transferTx1.amount + fee transferTx1) [gtxS] = [] := by
    simp only [consumeUtxos, if_pos h01]
  rw [addBlock, if_neg (by decide), if_neg (by rw [isValidBlock_block1]; decide)]
  rw [show processStakeTransactions chain0 block1 = chain0 from rfl]
  dsimp only
  rw [show updateUtxoSet chain0 block1 =
    { chain0 with
        utxoSet := block1.transactions.foldl updateUtxoSetTx chain0.utxoSet }
    from rfl]
  simp only [show block1.transactions = [rewardTx1, transferTx1] from rfl,
    List.foldl]
  rw [show updateUtxoSetTx chain0.utxoSet rewardTx1 =
    creditTx chain0.utxoSet rewardTx1 from by
    rw [updateUtxoSetTx, if_neg (by decide)]]
  rw [show updateUtxoSetTx (creditTx chain0.utxoSet rewardTx1) transferTx1 =
    creditTx (aset (creditTx chain0.utxoSet rewardTx1) "S"
      (consumeUtxos (transferTx1.amount + fee transferTx1) [gtxS]))
      transferTx1 from by
    rw [updateUtxoSetTx, if_pos (by decide)]
    rw [show alookup (creditTx chain0.utxoSet rewardTx1) transferTx1.sender =
      some [gtxS] from rfl]
    rfl]
  rw [hcons]
  rfl

/-- C1 counterexample: after the genesis block and one accepted block
holding the height-1 reward and a 10-coin transfer, the sum of all
balances is 110 (the spend destroyed the 140 of change and the fee),
while minted-minus-unspendable is 250 − 50 = 200; the identity fails
both with the unspendable address included in the sum and with it
excluded. -/
theorem conservation_counterexample :
    (addBlock chain0 1000 block1).1 = true ∧
    sumBalances chain1 ≠
      totalMinted chain1 - getBalance chain1 chain1.genesisUnspendable ∧
    sumBalancesExcept chain1 chain1.genesisUnspendable ≠
      totalMinted chain1 - getBalance chain1 chain1.genesisUnspendable := by
  have hc : chain1 = chain1Explicit := by rw [chain1, addBlock_block1]
  have hg : chain1Explicit.genesisUnspendable = "U" := rfl
  have h1 : sumBalances chain1Explicit = 110 := by
    simp only [sumBalances, chain1Explicit, List.map_cons, List.map_nil,
      List.sum_cons, List.sum_nil]
    norm_num [gtxU, rewardTx1, transferTx1, createGenesis, createReward]
  have h2 : totalMinted chain1Explicit = 250 := by
    simp +decide only [totalMinted, chain1Explicit, genesisBlock, block1,
      List.filter_cons, List.filter_nil, if_true, if_false, ite_true,
      ite_false, List.map_cons, List.map_nil, List.sum_cons, List.sum_nil]
    norm_num [createGenesis, rewardTx1, createReward]
  have h3 : getBalance chain1Explicit "U" = 50 := by
    have hl : alookup chain1Explicit.utxoSet "U" = some [gtxU] := rfl
    simp only [getBalance, hl, List.map_cons, List.map_nil, List.sum_cons,
      List.sum_nil]
    norm_num [gtxU, createGenesis]
  have h4 : sumBalancesExcept chain1Explicit "U" = 60 := by
    simp +decide only [sumBalancesExcept, chain1Explicit, List.filter_cons,
      List.filter_nil, if_true, if_false, ite_true, ite_false,
      List.map_cons, List.map_nil, List.sum_cons, List.sum_nil]
    norm_num [rewardTx1, transferTx1, createReward]
  refine ⟨by rw [addBlock_block1], ?_, ?_⟩
  · rw [hc, hg, h1, h2, h3]
    norm_num
  · rw [hc, hg, h4, h2, h3]
    norm_num

/-! ## Conservation over system-minted blocks -/

theorem utxoMass_nil : utxoMass [] = 0 := rfl

theorem utxoMass_cons (p : String × List Transaction)
    (l : List (String × List Transaction)) :
    utxoMass (p :: l) = (p.2.map Transaction.amount).sum + utxoMass l := by
  simp [utxoMass]

theorem creditTx_cons_ne (p : String × List Transaction)
    (rest : List (String × List Transaction)) (tx : Transaction)
    (h : ¬((p.1 == tx.recipient) = true)) :
    creditTx (p :: rest) tx = p :: creditTx rest tx := by
  simp only [creditTx, alookup_cons, h, if_false, aset, Bool.false_eq_true]

theorem utxoMass_creditTx (u : List (String × List Transaction))
    (tx : Transaction) :
    utxoMass (creditTx u tx) = utxoMass u + tx.amount := by
  induction u with
  | nil =>
      simp [creditTx, aset, alookup_nil, utxoMass]
  | cons p rest ih =>
      by_cases h : (p.1 == tx.recipient) = true
      · have hcred : creditTx (p :: rest) tx =
            (tx.recipient, p.2 ++ [tx]) :: rest := by
          simp only [creditTx, alookup_cons, h, if_true, Option.getD_some,
            aset]
        rw [hcred, utxoMass_cons, utxoMass_cons]
        simp only [List.map_append, List.sum_append, List.map_cons,
          List.map_nil, List.sum_cons, List.sum_nil]
        ring
      · rw [creditTx_cons_ne p rest tx h, utxoMass_cons, utxoMass_cons, ih]
        ring

theorem utxoMass_foldl_creditTx (txs : List Transaction)
    (u : List (String × List Transaction)) :
    utxoMass (txs.foldl creditTx u) =
      utxoMass u + (txs.map Transaction.amount).sum := by
  induction txs generalizing u with
  | nil => simp
  | cons t ts ih =>
      rw [List.foldl_cons, ih, utxoMass_creditTx]
      simp only [List.map_cons, List.sum_cons]
      ring

theorem updateUtxoSetTx_sender0 (u : List (String × List Transaction))
    (tx : Transaction) (h : tx.sender = "0") :
    updateUtxoSetTx u tx = creditTx u tx := by
  rw [updateUtxoSetTx, if_neg (by simp [h])]

theorem utxoMass_foldl_update_sender0 (txs : List Transaction)
    (u : List (String × List Transaction))
    (hall : ∀ tx ∈ txs, tx.sender = "0") :
    utxoMass (txs.foldl updateUtxoSetTx u) =
      utxoMass u + (txs.map Transaction.amount).sum := by
  induction txs generalizing u with
  | nil => simp
  | cons t ts ih =>
      rw [List.foldl_cons,
        updateUtxoSetTx_sender0 u t (hall t (List.mem_cons_self t ts)),
        ih _ (fun tx hx => hall tx (List.mem_cons_of_mem t hx)),
        utxoMass_creditTx]
      simp only [List.map_cons, List.sum_cons]
      ring

theorem mintedInBlock_eq_sum (b : Block)
    (hall : ∀ tx ∈ b.transactions, systemMintTx tx) :
    mintedInBlock b = (b.transactions.map Transaction.amount).sum := by
  rw [mintedInBlock, List.filter_eq_self.mpr]
  intro tx hx
  rcases (hall tx hx).2 with h | h <;> simp [h]

theorem updateValidatorStake_preserves (bc : Blockchain) (a : String)
    (amt : ℚ) (add : Bool) :
    (updateValidatorStake bc a amt add).2.utxoSet = bc.utxoSet ∧
    (updateValidatorStake bc a amt add).2.chain = bc.chain := by
  rw [updateValidatorStake]
  dsimp only
  split_ifs <;> exact ⟨rfl, rfl⟩

theorem processStake_preserves (bc : Blockchain) (b : Block) :
    (processStakeTransactions bc b).utxoSet = bc.utxoSet ∧
    (processStakeTransactions bc b).chain = bc.chain := by
  rw [processStakeTransactions]
  generalize b.transactions = txs
  induction txs generalizing bc with
  | nil => exact ⟨rfl, rfl⟩
  | cons t ts ih =>
      rw [List.foldl_cons]
      cases h : t.transactionType <;>
        simp only [h] <;>
        first
          | exact ih bc
          | · obtain ⟨h1, h2⟩ :=
                ih (updateValidatorStake bc t.sender t.amount true).2
              obtain ⟨h3, h4⟩ :=
                updateValidatorStake_preserves bc t.sender t.amount true
              exact ⟨h1.trans h3, h2.trans h4⟩
          | · obtain ⟨h1, h2⟩ :=
                ih (updateValidatorStake bc t.sender t.amount false).2
              obtain ⟨h3, h4⟩ :=
                updateValidatorStake_preserves bc t.sender t.amount false
              exact ⟨h1.trans h3, h2.trans h4⟩

theorem totalMinted_eq (bc : Blockchain) :
    totalMinted bc = (bc.chain.map mintedInBlock).sum := rfl

/-- One `add_block` call preserves `Σ balances = Σ minted` when every
transaction of the block is system-minted (whether or not the block is
accepted). -/
theorem addBlock_system_invariant (bc : Blockchain) (now : ℤ) (b : Block)
    (hall : ∀ tx ∈ b.transactions, systemMintTx tx)
    (hinv : utxoMass bc.utxoSet = totalMinted bc) :
    utxoMass (addBlock bc now b).2.utxoSet = totalMinted (addBlock bc now b).2 := by
  have hsender : ∀ tx ∈ b.transactions, tx.sender = "0" :=
    fun tx hx => (hall tx hx).1
  rw [addBlock]
  by_cases h0 : (b.height == 0) = true
  · simp only [h0, if_true]
    rw [show ∀ bc1 : Blockchain, totalMinted bc1 =
      (bc1.chain.map mintedInBlock).sum from fun _ => rfl]
    simp only [List.map_append, List.sum_append, List.map_cons,
      List.map_nil, List.sum_cons, List.sum_nil]
    rw [utxoMass_foldl_creditTx, hinv, totalMinted_eq,
      mintedInBlock_eq_sum b hall]
    ring
  · simp only [h0, Bool.false_eq_true, if_false]
    by_cases hv : (!(isValidBlock bc now b)) = true
    · simp only [hv, if_true]
      exact hinv
    · simp only [hv, Bool.false_eq_true, if_false]
      obtain ⟨hu, hc⟩ := processStake_preserves bc b
      rw [show ∀ bc1 : Blockchain, totalMinted bc1 =
        (bc1.chain.map mintedInBlock).sum from fun _ => rfl]
      simp only [updateUtxoSet, updateMempool, updateBlockReward]
      split_ifs <;>
        simp only [List.map_append, List.sum_append, List.map_cons,
          List.map_nil, List.sum_cons, List.sum_nil] <;>
        rw [utxoMass_foldl_update_sender0 b.transactions _ hsender, hu, hc,
          hinv, totalMinted_eq, mintedInBlock_eq_sum b hall] <;>
        ring

/-! ## Key uniqueness of the UTXO map -/

theorem keys_aset {α β : Type} [BEq α] [LawfulBEq α] (l : List (α × β))
    (k : α) (v : β) :
    (aset l k v).map Prod.fst =
      if k ∈ l.map Prod.fst then l.map Prod.fst
      else l.map Prod.fst ++ [k] := by
  induction l with
  | nil => simp [aset]
  | cons p rest ih =>
      by_cases hp : (p.1 == k) = true
      · have hp' : p.1 = k := by simpa using hp
        simp [aset, hp, hp']
      · have hp' : ¬(k = p.1) := by
          intro e; exact hp (by simp [e])
        simp only [aset, hp, if_false, List.map_cons, ih,
          Bool.false_eq_true]
        by_cases hm : k ∈ rest.map Prod.fst
        · simp [hm, hp']
        · simp [hm, hp']

theorem keysNodup_aset (u : List (String × List Transaction)) (k : String)
    (v : List Transaction) (h : keysNodup u) : keysNodup (aset u k v) := by
  rw [keysNodup, keys_aset]
  split_ifs with hm
  · exact h
  · exact List.Nodup.append h (List.nodup_singleton k)
      (fun a ha hb => hm ((List.mem_singleton.mp hb) ▸ ha))

theorem keysNodup_creditTx (u : List (String × List Transaction))
    (tx : Transaction) (h : keysNodup u) : keysNodup (creditTx u tx) :=
  keysNodup_aset u tx.recipient _ h

theorem keysNodup_updateUtxoSetTx (u : List (String × List Transaction))
    (tx : Transaction) (h : keysNodup u) :
    keysNodup (updateUtxoSetTx u tx) := by
  rw [updateUtxoSetTx]
  split_ifs with hs
  · cases hm : alookup u tx.sender with
    | none => simp only [hm]; exact keysNodup_creditTx _ _ h
    | some l =>
        simp only [hm]
        exact keysNodup_creditTx _ _ (keysNodup_aset _ _ _ h)
  · exact keysNodup_creditTx _ _ h

theorem keysNodup_foldl_creditTx (txs : List Transaction)
    (u : List (String × List Transaction)) (h : keysNodup u) :
    keysNodup (txs.foldl creditTx u) := by
  induction txs generalizing u with
  | nil => exact h
  | cons t ts ih => exact ih _ (keysNodup_creditTx u t h)

theorem keysNodup_foldl_update (txs : List Transaction)
    (u : List (String × List Transaction)) (h : keysNodup u) :
    keysNodup (txs.foldl updateUtxoSetTx u) := by
  induction txs generalizing u with
  | nil => exact h
  | cons t ts ih => exact ih _ (keysNodup_updateUtxoSetTx u t h)

theorem keysNodup_addBlock (bc : Blockchain) (now : ℤ) (b : Block)
    (h : keysNodup bc.utxoSet) :
    keysNodup (addBlock bc now b).2.utxoSet := by
  rw [addBlock]
  by_cases h0 : (b.height == 0) = true
  · simp only [h0, if_true]
    exact keysNodup_foldl_creditTx _ _ h
  · simp only [h0, Bool.false_eq_true, if_false]
    by_cases hv : (!(isValidBlock bc now b)) = true
    · simp only [hv, if_true]
      exact h
    · simp only [hv, Bool.false_eq_true, if_false]
      have hu := (processStake_preserves bc b).1
      simp only [updateUtxoSet, updateMempool, updateBlockReward]
      split_ifs <;>
        exact keysNodup_foldl_update b.transactions _ (by rw [hu]; exact h)

/-! ## Splitting the balance sum at one address -/

theorem alookup_eq_none {α β : Type} [BEq α] [LawfulBEq α]
    (l : List (α × β)) (k : α) (h : k ∉ l.map Prod.fst) :
    alookup l k = none := by
  induction l with
  | nil => rfl
  | cons p rest ih =>
      rw [List.map_cons] at h
      simp only [List.mem_cons, not_or] at h
      have h1 : ¬((p.1 == k) = true) := by
        simpa using fun e => h.1 e.symm
      rw [alookup_cons, if_neg h1, ih h.2]

theorem keyMass_cons (p : String × List Transaction)
    (l : List (String × List Transaction)) (a : String) :
    keyMass (p :: l) a =
      if (p.1 == a) = true then (p.2.map Transaction.amount).sum
      else keyMass l a := by
  rw [keyMass, alookup_cons]
  by_cases h : (p.1 == a) = true <;> simp [h, keyMass]

theorem utxoMass_split (u : List (String × List Transaction)) (a : String)
    (h : keysNodup u) :
    utxoMass u = utxoMass (u.filter (fun p => p.1 ≠ a)) + keyMass u a := by
  induction u with
  | nil => simp [utxoMass, keyMass, alookup_nil]
  | cons p rest ih =>
      have hnd : keysNodup rest := (List.nodup_cons.mp h).2
      have hpm : p.1 ∉ rest.map Prod.fst := (List.nodup_cons.mp h).1
      by_cases hpa : p.1 = a
      · have hf : rest.filter (fun q => q.1 ≠ a) = rest := by
          apply List.filter_eq_self.mpr
          intro q hq
          simp only [decide_eq_true_eq]
          intro e
          exact hpm (hpa ▸ e ▸ List.mem_map_of_mem Prod.fst hq)
        rw [utxoMass_cons, keyMass_cons,
          if_pos (by simpa using hpa),
          List.filter_cons_of_neg (by simpa using hpa), hf]
        ring
      · rw [utxoMass_cons, keyMass_cons, if_neg (by simpa using hpa),
          List.filter_cons_of_pos (by simpa using hpa), utxoMass_cons,
          ih hnd]
        ring

/-! ## The conservation identity over system-minted chains -/

theorem applyBlocks_cons (bc : Blockchain) (now : ℤ) (b : Block)
    (rest : List Block) :
    applyBlocks bc now (b :: rest) =
      applyBlocks (addBlock bc now b).2 now rest := by
  simp [applyBlocks]

theorem applyBlocks_system_invariant (now : ℤ) (bs : List Block)
    (hall : ∀ b ∈ bs, ∀ tx ∈ b.transactions, systemMintTx tx)
    (bc : Blockchain) (hinv : utxoMass bc.utxoSet = totalMinted bc) :
    utxoMass (applyBlocks bc now bs).utxoSet =
      totalMinted (applyBlocks bc now bs) := by
  induction bs generalizing bc with
  | nil => exact hinv
  | cons b rest ih =>
      rw [applyBlocks_cons]
      exact ih (fun b' hb' => hall b' (List.mem_cons_of_mem b hb')) _
        (addBlock_system_invariant bc now b
          (hall b (List.mem_cons_self b rest)) hinv)

theorem applyBlocks_nodup (now : ℤ) (bs : List Block) (bc : Blockchain)
    (h : keysNodup bc.utxoSet) :
    keysNodup (applyBlocks bc now bs).utxoSet := by
  induction bs generalizing bc with
  | nil => exact h
  | cons b rest ih =>
      rw [applyBlocks_cons]
      exact ih _ (keysNodup_addBlock bc now b h)

theorem initial_invariant (u s : String) :
    utxoMass (initialBlockchain u s).utxoSet =
      totalMinted (initialBlockchain u s) ∧
    keysNodup (initialBlockchain u s).utxoSet := by
  have hall : ∀ tx ∈ (genesisBlock u s).transactions, systemMintTx tx := by
    intro tx hx
    rw [show (genesisBlock u s).transactions =
      [createGenesis u 50 "bitcoin aged fine!",
       createGenesis s 150 "Initial staking allocation"] from rfl] at hx
    simp only [List.mem_cons, List.not_mem_nil, or_false] at hx
    rcases hx with rfl | rfl
    · exact ⟨rfl, Or.inl rfl⟩
    · exact ⟨rfl, Or.inl rfl⟩
  constructor
  · exact addBlock_system_invariant (emptyBlockchain u s) 0 (genesisBlock u s)
      hall rfl
  · exact keysNodup_addBlock (emptyBlockchain u s) 0 (genesisBlock u s)
      List.nodup_nil

/-- C1 (amended): starting from the freshly initialized chain, for every
sequence of blocks fed to `add_block` in which every transaction is
system-minted (sender `"0"`, type Genesis or MiningReward), the sum of
`get_balance` over all addresses equals the total of all Genesis and
MiningReward amounts in the chain, and the balance sum excluding the
unspendable address equals that minted total minus the
unspendable-address balance (the circulating supply).  The subtraction
of the unspendable balance applies only when that address is excluded
from the sum, and the identity is destroyed by any non-system spend,
which burns the fee and all change. -/
theorem conservation_system_blocks (u s : String) (now : ℤ)
    (bs : List Block)
    (hall : ∀ b ∈ bs, ∀ tx ∈ b.transactions, systemMintTx tx) :
    sumBalances (applyBlocks (initialBlockchain u s) now bs) =
      totalMinted (applyBlocks (initialBlockchain u s) now bs) ∧
    sumBalancesExcept (applyBlocks (initialBlockchain u s) now bs)
        (applyBlocks (initialBlockchain u s) now bs).genesisUnspendable =
      totalMinted (applyBlocks (initialBlockchain u s) now bs) -
        getBalance (applyBlocks (initialBlockchain u s) now bs)
          (applyBlocks (initialBlockchain u s) now bs).genesisUnspendable := by
  obtain ⟨hinv, hnd⟩ := initial_invariant u s
  have hmass := applyBlocks_system_invariant now bs hall _ hinv
  have hnd2 := applyBlocks_nodup now bs _ hnd
  have hsplit := utxoMass_split
    (applyBlocks (initialBlockchain u s) now bs).utxoSet
    (applyBlocks (initialBlockchain u s) now bs).genesisUnspendable hnd2
  have hsum : ∀ bc : Blockchain, sumBalances bc = utxoMass bc.utxoSet :=
    fun _ => rfl
  have hexc : ∀ (bc : Blockchain) (a : String), sumBalancesExcept bc a =
      utxoMass (bc.utxoSet.filter (fun p => p.1 ≠ a)) := fun _ _ => rfl
  have hbal : ∀ (bc : Blockchain) (a : String),
      getBalance bc a = keyMass bc.utxoSet a := fun _ _ => rfl
  refine ⟨by rw [hsum]; exact hmass, ?_⟩
  rw [hexc, hbal, ← hmass]
  linarith [hsplit]

/-- C1 witness: the initialized chain itself (empty block sequence)
satisfies the amended identity: 200 = 200 over all addresses, and
150 = 200 − 50 excluding the unspendable address. -/
theorem conservation_system_blocks_witness :
    sumBalances (applyBlocks (initialBlockchain "U" "S") 0 []) =
      totalMinted (applyBlocks (initialBlockchain "U" "S") 0 []) ∧
    sumBalancesExcept (applyBlocks (initialBlockchain "U" "S") 0 [])
        (applyBlocks (initialBlockchain "U" "S") 0 []).genesisUnspendable =
      totalMinted (applyBlocks (initialBlockchain "U" "S") 0 []) -
        getBalance (applyBlocks (initialBlockchain "U" "S") 0 [])
          (applyBlocks (initialBlockchain "U" "S") 0 []).genesisUnspendable :=
  conservation_system_blocks "U" "S" 0 []
    (by intro b hb; exact absurd hb (List.not_mem_nil b))

/-- C4: validator selection is not reproducible across repeated calls:
with validators "A" and "B" (equal stakes, no prior selections), a
second `select_validator` call with the same `(height, prev_hash)`
returns a different validator than the first, because the first call
stamped the winner's `last_validation_time` and the 5-minute cooldown
then excludes it from the pool. -/
theorem validator_selection_not_reproducible :
    selectRun1.1.isSome ∧ selectRun2.1.isSome ∧
    selectRun1.1 ≠ selectRun2.1 := by decide

/-- C5: two conflicting votes (same validator "V", same height 5,
different block hashes) produce no slashing event at all: the first
check only initializes "V"'s empty vote map without storing the vote,
so the second check finds no prior vote to conflict with.  "V"'s
slashing history stays empty and the 1000 stake is untouched. -/
theorem double_signing_two_votes_unpunished :
    slashRun1.map Prod.fst = Except.ok none ∧
    slashRun2.map Prod.fst = Except.ok none ∧
    alookup slash2.slashingHistory "V" = none ∧
    slash2.selector.getValidatorStake "V" =
      some { address := "V", amount := 1000, timestamp := 0 } := by decide

/-- C7: a competing segment whose fork depth exceeds `max_reorg_depth`
is rejected before the checkpoint, revert and apply steps, leaving the
state (chain head, applied ledger, block store, checkpoint slot)
entirely unchanged. -/
theorem reorg_depth_bound (maxReorgDepth : ℕ) (st : ReorgState)
    (newBlocks : List RBlock) (currentTip fp : String)
    (oldChain newChain : List RBlock)
    (hfind : findForkPoint st newBlocks currentTip =
      some (fp, oldChain, newChain))
    (hdeep : maxReorgDepth < oldChain.length) :
    handleReorg maxReorgDepth st newBlocks currentTip = (none, st) := by
  unfold handleReorg
  rw [hfind]
  dsimp only
  rw [if_pos hdeep]

/-- C7 witness: with `max_reorg_depth = 1`, the depth-2 segment forking
at genesis is rejected and the state is returned unchanged. -/
theorem reorg_depth_bound_witness :
    handleReorg 1 reorgSt newBlocksDeep "b" = (none, reorgSt) :=
  reorg_depth_bound 1 reorgSt newBlocksDeep "b" "g" [rbB, rbA]
    [rbA3, rbB3, rbC3] (by decide) (by decide)

/-! ## Evaluating `submit_vote` -/

theorem submitVote_pending (fs : BlockFinalizer) (now : ℤ)
    (validator blockHash : String) (blockHeight : ℕ) (signature : String)
    (h1 : fs.validatorSelector.isActiveValidator validator = true)
    (h2 : fs.finalizedBlocks.contains blockHash = false)
    (h3 : checkFinalization
      { fs with pendingBlocks := (aset fs.pendingBlocks blockHash
          (recordedVotes fs blockHash now validator signature)) }
      now blockHash blockHeight = false) :
    submitVote fs now validator blockHash blockHeight signature =
      (true, { fs with pendingBlocks := (aset fs.pendingBlocks blockHash
          (recordedVotes fs blockHash now validator signature)) }) := by
  rw [submitVote, if_neg (by simp [h1]), if_neg (by rw [h2]; exact
    Bool.false_ne_true)]
  dsimp only
  rw [if_neg (by simp [h3])]

theorem submitVote_finalizing (fs : BlockFinalizer) (now : ℤ)
    (validator blockHash : String) (blockHeight : ℕ) (signature : String)
    (h1 : fs.validatorSelector.isActiveValidator validator = true)
    (h2 : fs.finalizedBlocks.contains blockHash = false)
    (h3 : checkFinalization
      { fs with pendingBlocks := (aset fs.pendingBlocks blockHash
          (recordedVotes fs blockHash now validator signature)) }
      now blockHash blockHeight = true) :
    submitVote fs now validator blockHash blockHeight signature =
      (true, finalizeBlock
        { fs with pendingBlocks := (aset fs.pendingBlocks blockHash
            (recordedVotes fs blockHash now validator signature)) }
        now blockHash blockHeight) := by
  rw [submitVote, if_neg (by simp [h1]), if_neg (by rw [h2]; exact
    Bool.false_ne_true)]
  dsimp only
  rw [if_pos (by simp [h3])]

theorem checkFinalization_fin1 : checkFinalization
    { fin0 with pendingBlocks := (aset fin0.pendingBlocks "H"
        (recordedVotes fin0 "H" 0 "V" "s1")) } 0 "H" 1 = false := by
  unfold checkFinalization
  rw [show alookup ({ fin0 with pendingBlocks := (aset fin0.pendingBlocks "H"
      (recordedVotes fin0 "H" 0 "V" "s1")) } : BlockFinalizer).pendingBlocks
      "H" = some [voteH1] from by decide]
  dsimp only
  rw [if_neg (by decide)]
  apply decide_eq_false
  show ¬(((6000 : ℤ) : ℚ) * (67 / 100) ≤ ((1000 : ℤ) : ℚ))
  push_cast
  norm_num

theorem fin1_eq : fin1 =
    { fin0 with pendingBlocks := (aset fin0.pendingBlocks "H"
        (recordedVotes fin0 "H" 0 "V" "s1")) } := by
  rw [fin1, submitVote_pending fin0 0 "V" "H" 1 "s1" (by decide) (by decide)
    checkFinalization_fin1]

theorem checkFinalization_fin2 : checkFinalization
    { fin1 with pendingBlocks := (aset fin1.pendingBlocks "H"
        (recordedVotes fin1 "H" 1 "V" "s2")) } 1 "H" 1 = false := by
  unfold checkFinalization
  rw [show alookup ({ fin1 with pendingBlocks := (aset fin1.pendingBlocks "H"
      (recordedVotes fin1 "H" 1 "V" "s2")) } : BlockFinalizer).pendingBlocks
      "H" = some [voteH1, voteH2] from by rw [fin1_eq]; decide]
  dsimp only
  rw [if_neg (by rw [fin1_eq]; decide)]
  apply decide_eq_false
  rw [fin1_eq]
  show ¬(((6000 : ℤ) : ℚ) * (67 / 100) ≤ ((2000 : ℤ) : ℚ))
  push_cast
  norm_num

theorem fin2_eq : fin2 =
    { fin1 with pendingBlocks := (aset fin1.pendingBlocks "H"
        (recordedVotes fin1 "H" 1 "V" "s2")) } := by
  rw [fin2, submitVote_pending fin1 1 "V" "H" 1 "s2"
    (by rw [fin1_eq]; decide) (by rw [fin1_eq]; decide)
    checkFinalization_fin2]

/-- C6: a validator's repeated vote for the same block hash is a second
element of the pending vote set, not an overwrite: after "V" (stake
1000) votes twice for hash "H" at timestamps 0 and 1, the pending set
holds two votes by "V" and the voted-stake total of
`_check_finalization` counts 2000 — "V"'s stake twice. -/
theorem duplicate_votes_double_counted :
    (submitVote fin0 0 "V" "H" 1 "s1").1 = true ∧
    (submitVote fin1 1 "V" "H" 1 "s2").1 = true ∧
    alookup fin2.pendingBlocks "H" = some [voteH1, voteH2] ∧
    voteH1.validator = "V" ∧ voteH2.validator = "V" ∧
    stakeVoted fin2.validatorSelector 1 fin2.voteTimeout
      [voteH1, voteH2] = 2000 ∧
    (selVW.getValidatorStake "V").map Stake.amount = some 1000 := by
  have hv2 : fin2 = { fin1 with pendingBlocks := (aset fin1.pendingBlocks "H"
      (recordedVotes fin1 "H" 1 "V" "s2")) } := fin2_eq
  refine ⟨?_, ?_, ?_, rfl, rfl, ?_, by decide⟩
  · rw [submitVote_pending fin0 0 "V" "H" 1 "s1" (by decide) (by decide)
      checkFinalization_fin1]
  · rw [submitVote_pending fin1 1 "V" "H" 1 "s2"
      (by rw [fin1_eq]; decide) (by rw [fin1_eq]; decide)
      checkFinalization_fin2]
  · rw [hv2, fin1_eq]
    decide
  · rw [hv2, fin1_eq]
    decide

/-! ## Finalization then reorganization -/

theorem checkFinalization_finB : checkFinalization
    { finB0 with pendingBlocks := (aset finB0.pendingBlocks "b"
        (recordedVotes finB0 "b" 0 "V" "sig")) } 0 "b" 2 = true := by
  unfold checkFinalization
  rw [show alookup ({ finB0 with pendingBlocks := (aset finB0.pendingBlocks "b"
      (recordedVotes finB0 "b" 0 "V" "sig")) } : BlockFinalizer).pendingBlocks
      "b" = some [voteBfin] from by decide]
  dsimp only
  rw [if_neg (by decide)]
  apply decide_eq_true
  show ((1000 : ℤ) : ℚ) * (67 / 100) ≤ ((1000 : ℤ) : ℚ)
  push_cast
  norm_num

theorem finB1_eq : finB1 = finalizeBlock
    { finB0 with pendingBlocks := (aset finB0.pendingBlocks "b"
        (recordedVotes finB0 "b" 0 "V" "sig")) } 0 "b" 2 := by
  rw [finB1, submitVote_finalizing finB0 0 "V" "b" 2 "sig" (by decide)
    (by decide) checkFinalization_finB]

/-- C3: the reorganizer accepts a reorganization that reverts the very
block the finalizer has finalized: after "V"'s vote finalizes hash "b"
at height 2 (`latest_finalized_height = 2`), `handle_reorg` — which
never consults the finalizer — still reverts "b" (height 2 ≤ 2) for a
depth-1 competing segment. -/
theorem finalized_block_reverted_by_reorg :
    finB1.latestFinalizedHeight = 2 ∧
    finB1.finalizedBlocks = ["b"] ∧
    ((handleReorg 100 reorgSt newBlocksShallow "b").1.map
      ReorgResult.blocksRemoved) = some ["b"] ∧
    (rGetBlock reorgSt "b").map RBlock.index = some 2 := by
  refine ⟨?_, ?_, by decide, by decide⟩
  · rw [finB1_eq]
    decide
  · rw [finB1_eq]
    decide

end B2C
